import Mathlib

/-!
Verification of the SinkOrSail core (sinkorsail.py): grid geometry,
ship placement with buffer zones, and the opponent targeting engine.
Python classes are shallowly embedded as Lean structures; mutation is
explicit state passing; Python exceptions are `Except Err`; the global
RNG is an explicit argument (a rotation draw and a stream of points).
-/

namespace SinkOrSail

/-- Exception kinds: the module's own OOBError / InputError / OverlapError,
plus the Python runtime errors reachable in the AI code (NameError from the
unbound `gs` in the catch-all branch, IndexError from popping an empty deque,
ValueError from `randrange(0)`) and a marker for an exhausted random stream. -/
inductive Err where
  | oob
  | input
  | overlap
  | nameErr
  | indexErr
  | valueErr
  | exhausted
deriving DecidableEq, Repr

/-- Point: a location on a board's grid.  The Python object stores a
reference to its Board; we keep the board's dimensions (`bw`, `bh`),
which is all the methods of Point ever read from it. -/
structure Point where
  x : Int
  y : Int
  bw : Int
  bh : Int
deriving DecidableEq, Repr

/-- Default point (used only as the default of safe list indexing). -/
def pd : Point := ⟨0, 0, 0, 0⟩

/-- Point.__eq__ : structural on (x, y) only; the bound board is ignored. -/
def ptEq (p q : Point) : Bool :=
  p.x == q.x && p.y == q.y

/-- Point.__lt__ : p < q iff p.x < q.x, or p.x == q.x and p.y < q.y. -/
def ptLt (p q : Point) : Bool :=
  if p.x == q.x then decide (p.y < q.y) else decide (p.x < q.x)

/-- Point.__gt__ : p > q iff p.x > q.x, or p.x == q.x and p.y > q.y. -/
def ptGt (p q : Point) : Bool :=
  if p.x == q.x then decide (p.y > q.y) else decide (p.x > q.x)

/-- Point.__le__ : defined in the source as not (self > other). -/
def ptLe (p q : Point) : Bool :=
  !(ptGt p q)

/-- Membership of a coordinate pair in a list of Points, via Point.__eq__
(this is what Python's `in` computes on a list of Points). -/
def cMem (x y : Int) (l : List Point) : Bool :=
  l.any (fun q => q.x == x && q.y == y)

/-- `p in l` for a Point `p`: equality ignores the board, so membership
only looks at the coordinates. -/
def ptMem (p : Point) (l : List Point) : Bool :=
  cMem p.x p.y l

/-- Ship: `ext` is the occupied run (sorted ascending), `valid` the
not-yet-hit cells, `buffer` the adjacency exclusion zone. -/
structure Ship where
  kind : String
  ext : List Point
  valid : List Point
  buffer : List Point
deriving DecidableEq, Repr

/-- Board: dimensions plus the list of Ships on it (`content`).
The display grid is a derived rendering surface and is not modeled. -/
structure Board where
  width : Int
  height : Int
  content : List Ship
deriving DecidableEq, Repr

/-- The standard empty 10x10 board. -/
def board10 : Board := ⟨10, 10, []⟩

/-- Whether (x, y) is a legal coordinate of board b. -/
def inC (b : Board) (x y : Int) : Prop :=
  0 ≤ x ∧ x < b.width ∧ 0 ≤ y ∧ y < b.height

instance (b : Board) (x y : Int) : Decidable (inC b x y) := by
  unfold inC; infer_instance

/-- Point.__init__ : raises OOBError unless 0 ≤ x < width and 0 ≤ y < height. -/
def mkPoint (b : Board) (x y : Int) : Except Err Point :=
  if x < b.width ∧ y < b.height ∧ 0 ≤ x ∧ 0 ≤ y then
    .ok ⟨x, y, b.width, b.height⟩
  else
    .error .oob

/-- Point.adj_pts : the in-bounds orthogonal neighbours in source order
(down, up, right, left). -/
def adjPts (p : Point) : List Point :=
  (if p.y + 1 < p.bh then [⟨p.x, p.y + 1, p.bw, p.bh⟩] else []) ++
  (if 0 < p.y then [⟨p.x, p.y - 1, p.bw, p.bh⟩] else []) ++
  (if p.x + 1 < p.bw then [⟨p.x + 1, p.y, p.bw, p.bh⟩] else []) ++
  (if 0 < p.x then [⟨p.x - 1, p.y, p.bw, p.bh⟩] else [])

/-- Board.isoverlap : whether the coordinate lies in some ship's ext or buffer. -/
def cOverlap (b : Board) (x y : Int) : Bool :=
  b.content.any (fun s => cMem x y s.ext || cMem x y s.buffer)

/-- Board.isoverlap on a Point argument. -/
def isoverlap (b : Board) (p : Point) : Bool :=
  cOverlap b p.x p.y

/-- One iteration of the ray-extension loops in Board.inline: if the guard
holds, construct the Point; an OOBError from the constructor `break`s the
loop (discarding the rest); a false guard just skips this step. -/
def rayStep (b : Board) (g : Prop) [Decidable g] (x y : Int)
    (rest : List Point) : List Point :=
  if g then
    match mkPoint b x y with
    | .ok p => p :: rest
    | .error _ => []
  else rest

/-- Board.inline : the up-to-four points in line with h1 and h2 (first the
ray from h1 through h2 extended beyond h2, then the ray from h2 through h1
extended beyond h1).  The `0 ≤ h2.x - 1` guard in the fourth branch is the
source's literal guard (the second step there tests `h2.x - 1` but builds
the point at `h2.x - 2`; the constructor's OOBError then breaks the loop). -/
def inline (b : Board) (h1 h2 : Point) : List Point :=
  if h1.x = h2.x then
    if ptLt h1 h2 then
      rayStep b (h2.y + 1 < b.height) h2.x (h2.y + 1)
        (rayStep b (h2.y + 2 < b.height) h2.x (h2.y + 2) []) ++
      rayStep b (0 ≤ h1.y - 1) h1.x (h1.y - 1)
        (rayStep b (0 ≤ h1.y - 2) h1.x (h1.y - 2) [])
    else if ptGt h1 h2 then
      rayStep b (0 ≤ h2.y - 1) h2.x (h2.y - 1)
        (rayStep b (0 ≤ h2.y - 2) h2.x (h2.y - 2) []) ++
      rayStep b (h1.y + 1 < b.height) h1.x (h1.y + 1)
        (rayStep b (h1.y + 2 < b.height) h1.x (h1.y + 2) [])
    else []
  else if ptLt h1 h2 then
    rayStep b (h2.x + 1 < b.width) (h2.x + 1) h2.y
      (rayStep b (h2.x + 2 < b.width) (h2.x + 2) h2.y []) ++
    rayStep b (0 ≤ h1.x - 1) (h1.x - 1) h1.y
      (rayStep b (0 ≤ h1.x - 2) (h1.x - 2) h1.y [])
  else if ptGt h1 h2 then
    rayStep b (0 ≤ h2.x - 1) (h2.x - 1) h2.y
      (rayStep b (0 ≤ h2.x - 1) (h2.x - 2) h2.y []) ++
    rayStep b (h1.x + 1 < b.width) (h1.x + 1) h1.y
      (rayStep b (h1.x + 2 < b.width) (h1.x + 2) h1.y [])
  else []

theorem ptEq_iff (p q : Point) : ptEq p q = true ↔ (p.x = q.x ∧ p.y = q.y) := by
  simp [ptEq]

theorem ptLt_iff (p q : Point) :
    ptLt p q = true ↔ (p.x < q.x ∨ (p.x = q.x ∧ p.y < q.y)) := by
  unfold ptLt
  split <;> simp_all

theorem ptGt_iff (p q : Point) :
    ptGt p q = true ↔ (q.x < p.x ∨ (p.x = q.x ∧ q.y < p.y)) := by
  unfold ptGt
  split <;> simp_all

theorem ptEq_eq_decide (p q : Point) :
    ptEq p q = decide (p.x = q.x ∧ p.y = q.y) :=
  Bool.eq_iff_iff.mpr (by rw [decide_eq_true_eq]; exact ptEq_iff p q)

theorem ptLt_eq_decide (p q : Point) :
    ptLt p q = decide (p.x < q.x ∨ (p.x = q.x ∧ p.y < q.y)) :=
  Bool.eq_iff_iff.mpr (by rw [decide_eq_true_eq]; exact ptLt_iff p q)

theorem ptGt_eq_decide (p q : Point) :
    ptGt p q = decide (q.x < p.x ∨ (p.x = q.x ∧ q.y < p.y)) :=
  Bool.eq_iff_iff.mpr (by rw [decide_eq_true_eq]; exact ptGt_iff p q)

theorem ptLe_iff (p q : Point) :
    ptLe p q = true ↔ (p.x < q.x ∨ (p.x = q.x ∧ p.y ≤ q.y)) := by
  simp only [ptLe, ptGt_eq_decide, Bool.not_eq_true', decide_eq_false_iff_not]
  push_neg
  constructor
  · rintro ⟨h1, h2⟩
    omega
  · intro h
    omega

/-- C10: Point equality and ordering are structural on (x, y) only and
ignore the bound board: p == q iff the coordinates agree, and for any two
Points exactly one of p < q, p == q, q < p holds. -/
theorem C10_point_structural_total_order (p q : Point) :
    (ptEq p q = true ↔ (p.x = q.x ∧ p.y = q.y)) ∧
    ((ptLt p q = true ∧ ptEq p q = false ∧ ptLt q p = false) ∨
     (ptEq p q = true ∧ ptLt p q = false ∧ ptLt q p = false) ∨
     (ptLt q p = true ∧ ptEq p q = false ∧ ptLt p q = false)) := by
  refine ⟨ptEq_iff p q, ?_⟩
  simp only [ptEq_eq_decide, ptLt_eq_decide, decide_eq_true_eq,
    decide_eq_false_iff_not]
  omega

/-! ### C6: characterization of Board.inline -/

/-- The in-bounds clip of two consecutive ray candidates. -/
def clip2 (b : Board) (c1 c2 : Int × Int) : List Point :=
  (if inC b c1.1 c1.2 then [⟨c1.1, c1.2, b.width, b.height⟩] else []) ++
  (if inC b c2.1 c2.2 then [⟨c2.1, c2.2, b.width, b.height⟩] else [])

/-- The two candidates extending a ray away from p with step (dx, dy),
clipped to the board. -/
def rayFrom (b : Board) (p : Point) (dx dy : Int) : List Point :=
  clip2 b (p.x + dx, p.y + dy) (p.x + 2 * dx, p.y + 2 * dy)

theorem mkPoint_ok (b : Board) (x y : Int) (h : inC b x y) :
    mkPoint b x y = .ok ⟨x, y, b.width, b.height⟩ := by
  have hc : x < b.width ∧ y < b.height ∧ 0 ≤ x ∧ 0 ≤ y := by
    unfold inC at h; omega
  unfold mkPoint
  rw [if_pos hc]

theorem mkPoint_err (b : Board) (x y : Int) (h : ¬ inC b x y) :
    mkPoint b x y = .error .oob := by
  have hc : ¬(x < b.width ∧ y < b.height ∧ 0 ≤ x ∧ 0 ≤ y) := by
    unfold inC at h; omega
  unfold mkPoint
  rw [if_neg hc]

theorem rayStep_empty_rest (b : Board) (g : Prop) [Decidable g] (x y : Int)
    (h : inC b x y → g) :
    rayStep b g x y [] =
      if inC b x y then [⟨x, y, b.width, b.height⟩] else [] := by
  by_cases hin : inC b x y
  · simp [rayStep, if_pos (h hin), mkPoint_ok b x y hin, hin]
  · simp [rayStep, mkPoint_err b x y hin, hin]

theorem raySteps2 (b : Board) (g1 g2 : Prop) [Decidable g1] [Decidable g2]
    (x1 y1 x2 y2 : Int)
    (h1 : g1 ↔ inC b x1 y1) (h2 : inC b x2 y2 → g2)
    (hm : inC b x2 y2 → inC b x1 y1) :
    rayStep b g1 x1 y1 (rayStep b g2 x2 y2 []) = clip2 b (x1, y1) (x2, y2) := by
  rw [rayStep_empty_rest b g2 x2 y2 h2]
  by_cases hin1 : inC b x1 y1
  · simp [rayStep, clip2, h1.mpr hin1, mkPoint_ok b x1 y1 hin1, hin1]
  · have hin2 : ¬ inC b x2 y2 := fun hc => hin1 (hm hc)
    by_cases hg1 : g1
    · exact absurd (h1.mp hg1) hin1
    · simp [rayStep, clip2, hg1, hin1, hin2]

theorem clip2_length_le (b : Board) (c1 c2 : Int × Int) :
    (clip2 b c1 c2).length ≤ 2 := by
  unfold clip2
  split_ifs <;> simp

/-- C6: for distinct colinear coordinates, Board.inline returns, in this
order, the up-to-2 candidates extending the ray from h1 through h2 beyond
h2, then the up-to-2 candidates extending the ray from h2 through h1
beyond h1, each clipped to bounds; so at most 4 points, exactly 4 when all
four candidates are in bounds; and the empty list when h1 == h2. -/
theorem C6_inline_ray_characterization (b : Board) (h1 h2 : Point)
    (hb1 : inC b h1.x h1.y) (hb2 : inC b h2.x h2.y)
    (hcol : h1.x = h2.x ∨ h1.y = h2.y) :
    (ptEq h1 h2 = true → inline b h1 h2 = []) ∧
    (ptEq h1 h2 = false →
      inline b h1 h2 =
        rayFrom b h2 (Int.sign (h2.x - h1.x)) (Int.sign (h2.y - h1.y)) ++
        rayFrom b h1 (Int.sign (h1.x - h2.x)) (Int.sign (h1.y - h2.y)) ∧
      (inline b h1 h2).length ≤ 4 ∧
      ((inC b (h2.x + Int.sign (h2.x - h1.x)) (h2.y + Int.sign (h2.y - h1.y)) ∧
        inC b (h2.x + 2 * Int.sign (h2.x - h1.x)) (h2.y + 2 * Int.sign (h2.y - h1.y)) ∧
        inC b (h1.x + Int.sign (h1.x - h2.x)) (h1.y + Int.sign (h1.y - h2.y)) ∧
        inC b (h1.x + 2 * Int.sign (h1.x - h2.x)) (h1.y + 2 * Int.sign (h1.y - h2.y))) →
        (inline b h1 h2).length = 4)) := by
  obtain ⟨hx10, hx1w, hy10, hy1h⟩ := hb1
  obtain ⟨hx20, hx2w, hy20, hy2h⟩ := hb2
  constructor
  · intro he
    rw [ptEq_iff] at he
    obtain ⟨hex, hey⟩ := he
    unfold inline
    rw [if_pos hex]
    have hlt : ptLt h1 h2 = false := by
      rw [Bool.eq_false_iff, ne_eq, ptLt_iff]; omega
    have hgt : ptGt h1 h2 = false := by
      rw [Bool.eq_false_iff, ne_eq, ptGt_iff]; omega
    simp [hlt, hgt]
  · intro hne
    rw [Bool.eq_false_iff, ne_eq, ptEq_iff] at hne
    have hmain : inline b h1 h2 =
        rayFrom b h2 (Int.sign (h2.x - h1.x)) (Int.sign (h2.y - h1.y)) ++
        rayFrom b h1 (Int.sign (h1.x - h2.x)) (Int.sign (h1.y - h2.y)) := by
      rcases hcol with hx | hy
      · -- vertical line
        have hyne : h1.y ≠ h2.y := by
          intro hc; exact hne ⟨hx, hc⟩
        have hsx : Int.sign (h2.x - h1.x) = 0 := by
          rw [hx]; simp
        have hsx' : Int.sign (h1.x - h2.x) = 0 := by
          rw [hx]; simp
        rcases lt_or_gt_of_ne hyne with hlt | hgt
        · have hsy : Int.sign (h2.y - h1.y) = 1 := Int.sign_eq_one_of_pos (by omega)
          have hsy' : Int.sign (h1.y - h2.y) = -1 := Int.sign_eq_neg_one_of_neg (by omega)
          have hl : ptLt h1 h2 = true := by rw [ptLt_iff]; omega
          unfold inline
          rw [if_pos hx, if_pos hl]
          rw [raySteps2 b _ _ _ _ _ _ (by unfold inC; omega) (by unfold inC; omega)
                (by unfold inC; omega),
              raySteps2 b _ _ _ _ _ _ (by unfold inC; omega) (by unfold inC; omega)
                (by unfold inC; omega)]
          unfold rayFrom
          rw [hsx, hsx', hsy, hsy', hx]
          norm_num
          simp [Int.sub_eq_add_neg]
        · have hsy : Int.sign (h2.y - h1.y) = -1 := Int.sign_eq_neg_one_of_neg (by omega)
          have hsy' : Int.sign (h1.y - h2.y) = 1 := Int.sign_eq_one_of_pos (by omega)
          have hl : ptLt h1 h2 = false := by
            rw [Bool.eq_false_iff, ne_eq, ptLt_iff]; omega
          have hg : ptGt h1 h2 = true := by rw [ptGt_iff]; omega
          unfold inline
          rw [if_pos hx]
          simp only [hl, hg, Bool.false_eq_true, if_false, if_true]
          rw [raySteps2 b _ _ _ _ _ _ (by unfold inC; omega) (by unfold inC; omega)
                (by unfold inC; omega),
              raySteps2 b _ _ _ _ _ _ (by unfold inC; omega) (by unfold inC; omega)
                (by unfold inC; omega)]
          unfold rayFrom
          rw [hsx, hsx', hsy, hsy', hx]
          norm_num
          simp [Int.sub_eq_add_neg]
      · -- horizontal line (x differ since the points differ)
        have hxne : h1.x ≠ h2.x := by
          intro hc; exact hne ⟨hc, hy⟩
        have hsy : Int.sign (h2.y - h1.y) = 0 := by
          rw [hy]; simp
        have hsy' : Int.sign (h1.y - h2.y) = 0 := by
          rw [hy]; simp
        rcases lt_or_gt_of_ne hxne with hlt | hgt
        · have hsx : Int.sign (h2.x - h1.x) = 1 := Int.sign_eq_one_of_pos (by omega)
          have hsx' : Int.sign (h1.x - h2.x) = -1 := Int.sign_eq_neg_one_of_neg (by omega)
          have hl : ptLt h1 h2 = true := by rw [ptLt_iff]; omega
          unfold inline
          rw [if_neg hxne, if_pos hl]
          rw [raySteps2 b _ _ _ _ _ _ (by unfold inC; omega) (by unfold inC; omega)
                (by unfold inC; omega),
              raySteps2 b _ _ _ _ _ _ (by unfold inC; omega) (by unfold inC; omega)
                (by unfold inC; omega)]
          unfold rayFrom
          rw [hsx, hsx', hsy, hsy', hy]
          norm_num
          simp [Int.sub_eq_add_neg]
        · have hsx : Int.sign (h2.x - h1.x) = -1 := Int.sign_eq_neg_one_of_neg (by omega)
          have hsx' : Int.sign (h1.x - h2.x) = 1 := Int.sign_eq_one_of_pos (by omega)
          have hl : ptLt h1 h2 = false := by
            rw [Bool.eq_false_iff, ne_eq, ptLt_iff]; omega
          have hg : ptGt h1 h2 = true := by rw [ptGt_iff]; omega
          unfold inline
          rw [if_neg hxne]
          simp only [hl, hg, Bool.false_eq_true, if_false, if_true]
          rw [raySteps2 b _ _ _ _ _ _ (by unfold inC; omega) (by unfold inC; omega)
                (by unfold inC; omega),
              raySteps2 b _ _ _ _ _ _ (by unfold inC; omega) (by unfold inC; omega)
                (by unfold inC; omega)]
          unfold rayFrom
          rw [hsx, hsx', hsy, hsy', hy]
          norm_num
          simp [Int.sub_eq_add_neg]
    refine ⟨hmain, ?_, ?_⟩
    · rw [hmain]
      rw [List.length_append]
      have l1 := clip2_length_le b
        (h2.x + Int.sign (h2.x - h1.x), h2.y + Int.sign (h2.y - h1.y))
        (h2.x + 2 * Int.sign (h2.x - h1.x), h2.y + 2 * Int.sign (h2.y - h1.y))
      have l2 := clip2_length_le b
        (h1.x + Int.sign (h1.x - h2.x), h1.y + Int.sign (h1.y - h2.y))
        (h1.x + 2 * Int.sign (h1.x - h2.x), h1.y + 2 * Int.sign (h1.y - h2.y))
      unfold rayFrom
      omega
    · intro hall
      obtain ⟨ha1, ha2, ha3, ha4⟩ := hall
      rw [hmain]
      unfold rayFrom clip2
      rw [if_pos ha1, if_pos ha2, if_pos ha3, if_pos ha4]
      simp

/-! ### Ship construction (Ship.__init__) -/

/-- The ship length table of Ship.__init__. -/
def kindLen (k : String) : Nat :=
  if k = "battleship" then 4
  else if k = "cruiser" then 3
  else if k = "destroyer" then 2
  else 1

/-- The coordinates `origin + n * step(direction)` for n below the length,
in comprehension order (before sorting). -/
def extCoords (o : Point) (d : String) (L : Nat) : List (Int × Int) :=
  if d = "down" then (List.range L).map (fun (n : Nat) => (o.x, o.y + (n : Int)))
  else if d = "up" then (List.range L).map (fun (n : Nat) => (o.x, o.y - (n : Int)))
  else if d = "right" then (List.range L).map (fun (n : Nat) => (o.x + (n : Int), o.y))
  else (List.range L).map (fun (n : Nat) => (o.x - (n : Int), o.y))

/-- Evaluate a list of Point constructions in order; the first OOBError
aborts (as the Python list comprehension does). -/
def mkPoints (b : Board) : List (Int × Int) → Except Err (List Point)
  | [] => .ok []
  | c :: rest =>
    match mkPoint b c.1 c.2 with
    | .error e => .error e
    | .ok p =>
      match mkPoints b rest with
      | .error e => .error e
      | .ok ps => .ok (p :: ps)

/-- The ordering used by `self.ext.sort()` (Python sorts with `<`; on the
strict total coordinate order this yields the unique ascending ordering,
the same as insertion sort by `<=`). -/
def pLeProp (p q : Point) : Prop := ptLe p q = true

instance : DecidableRel pLeProp := fun p q => by
  unfold pLeProp; infer_instance

/-- `self.ext.sort()`. -/
def sortPts (l : List Point) : List Point := l.insertionSort pLeProp

/-- The buffer list built by Ship.__init__ from the origin `point`, the
direction, and the sorted extent. -/
def mkBuffer (b : Board) (point : Point) (d : String)
    (sext : List Point) : List Point :=
  if d = "right" ∨ d = "left" then
    (if 0 < (sext.headD pd).x then
      [⟨(sext.headD pd).x - 1, point.y, b.width, b.height⟩] else []) ++
    (if 0 < point.y then
      sext.map (fun p => ⟨p.x, p.y - 1, b.width, b.height⟩) else []) ++
    (if point.y + 1 < b.height then
      sext.map (fun p => ⟨p.x, p.y + 1, b.width, b.height⟩) else []) ++
    (if (sext.getLastD pd).x + 1 < b.width then
      [⟨(sext.getLastD pd).x + 1, point.y, b.width, b.height⟩] else [])
  else
    (if 0 < (sext.headD pd).y then
      [⟨point.x, (sext.headD pd).y - 1, b.width, b.height⟩] else []) ++
    (if 0 < point.x then
      sext.map (fun p => ⟨p.x - 1, p.y, b.width, b.height⟩) else []) ++
    (if point.x + 1 < b.width then
      sext.map (fun p => ⟨p.x + 1, p.y, b.width, b.height⟩) else []) ++
    (if (sext.getLastD pd).y + 1 < b.height then
      [⟨point.x, (sext.getLastD pd).y + 1, b.width, b.height⟩] else [])

/-- Ship.__init__ : validate direction and kind (InputError), build the
extent Points (OOBError aborts), check overlap against the board
(OverlapError), then sort, derive the buffer and append the new Ship to
the board's content.  The returned board is the mutated board; every
error return leaves the caller's board untouched (the Python code only
mutates in the final `board.content.append`). -/
def shipInit (b : Board) (point : Point) (d : String) (k : String) :
    Except Err Board :=
  if ¬(d = "down" ∨ d = "up" ∨ d = "left" ∨ d = "right") ∨
     ¬(k = "battleship" ∨ k = "cruiser" ∨ k = "destroyer" ∨ k = "submarine") then
    .error .input
  else
    match mkPoints b (extCoords point d (kindLen k)) with
    | .error e => .error e
    | .ok ext =>
      if ext.any (fun p => isoverlap b p) then .error .overlap
      else
        .ok { b with content :=
                b.content ++ [⟨k, sortPts ext, sortPts ext,
                  mkBuffer b point d (sortPts ext)⟩] }

/-! ### Sorting facts -/

theorem mkPoints_ok (b : Board) (cs : List (Int × Int))
    (h : ∀ c ∈ cs, inC b c.1 c.2) :
    mkPoints b cs = .ok (cs.map (fun c => ⟨c.1, c.2, b.width, b.height⟩)) := by
  induction cs with
  | nil => rfl
  | cons c rest ih =>
    have hc := h c (List.mem_cons_self c rest)
    rw [List.map_cons]
    simp only [mkPoints, mkPoint_ok b c.1 c.2 hc,
      ih (fun e he => h e (List.mem_cons_of_mem c he))]

theorem mkPoints_err (b : Board) (cs : List (Int × Int))
    (h : ∃ c ∈ cs, ¬ inC b c.1 c.2) :
    mkPoints b cs = .error .oob := by
  induction cs with
  | nil => simp at h
  | cons c rest ih =>
    by_cases hc : inC b c.1 c.2
    · have hr : ∃ e ∈ rest, ¬ inC b e.1 e.2 := by
        rcases h with ⟨e, he, hne⟩
        rcases List.mem_cons.mp he with rfl | he2
        · exact absurd hc hne
        · exact ⟨e, he2, hne⟩
      rw [mkPoints, mkPoint_ok b c.1 c.2 hc, ih hr]
    · rw [mkPoints, mkPoint_err b c.1 c.2 hc]

theorem orderedInsert_all_not (a : Point) (l : List Point)
    (h : ∀ x ∈ l, ¬ pLeProp a x) :
    l.orderedInsert pLeProp a = l ++ [a] := by
  induction l with
  | nil => rfl
  | cons x xs ih =>
    rw [List.orderedInsert, if_neg (h x (List.mem_cons_self x xs)),
      ih (fun z hz => h z (List.mem_cons_of_mem x hz))]
    rfl

theorem insertionSort_desc (l : List Point)
    (h : List.Pairwise (fun p q => ¬ pLeProp p q) l) :
    List.insertionSort pLeProp l = l.reverse := by
  induction l with
  | nil => rfl
  | cons a t ih =>
    rw [List.insertionSort, ih (List.pairwise_cons.mp h).2,
      orderedInsert_all_not a t.reverse
        (fun z hz => (List.pairwise_cons.mp h).1 z (List.mem_reverse.mp hz))]
    simp

/-- Ascending cells of a vertical run starting at (x, y0). -/
def vCells (b : Board) (x y0 : Int) (L : Nat) : List Point :=
  (List.range L).map (fun (n : Nat) => ⟨x, y0 + (n : Int), b.width, b.height⟩)

/-- Ascending cells of a horizontal run starting at (x0, y). -/
def hCells (b : Board) (x0 y : Int) (L : Nat) : List Point :=
  (List.range L).map (fun (n : Nat) => ⟨x0 + (n : Int), y, b.width, b.height⟩)

theorem sortPts_vCells (b : Board) (x y0 : Int) (L : Nat) :
    sortPts (vCells b x y0 L) = vCells b x y0 L := by
  apply List.Sorted.insertionSort_eq
  unfold vCells List.Sorted
  rw [List.pairwise_map]
  apply (List.pairwise_lt_range L).imp
  intro i j hij
  unfold pLeProp
  rw [ptLe_iff]
  dsimp only
  right
  constructor
  · rfl
  · omega

theorem sortPts_hCells (b : Board) (x0 y : Int) (L : Nat) :
    sortPts (hCells b x0 y L) = hCells b x0 y L := by
  apply List.Sorted.insertionSort_eq
  unfold hCells List.Sorted
  rw [List.pairwise_map]
  apply (List.pairwise_lt_range L).imp
  intro i j hij
  unfold pLeProp
  rw [ptLe_iff]
  dsimp only
  left
  omega

theorem range_map_reverse {α : Type} (f : Nat → α) (L : Nat) :
    ((List.range L).map f).reverse = (List.range L).map (fun n => f (L - 1 - n)) := by
  apply List.ext_getElem
  · simp
  · intro i h1 h2
    simp only [List.length_map, List.length_range] at h1 h2
    simp only [List.getElem_reverse, List.getElem_map, List.getElem_range,
      List.length_map, List.length_range]

theorem sortPts_vDesc (b : Board) (x ytop : Int) (L : Nat) :
    sortPts ((List.range L).map (fun (n : Nat) => (⟨x, ytop - (n : Int), b.width, b.height⟩ : Point))) =
      vCells b x (ytop - (L - 1 : Nat)) L := by
  unfold sortPts
  rw [insertionSort_desc]
  · rw [range_map_reverse]
    unfold vCells
    apply List.map_congr_left
    intro n hn
    rw [List.mem_range] at hn
    congr 1
    omega
  · rw [List.pairwise_map]
    apply (List.pairwise_lt_range L).imp
    intro i j hij
    unfold pLeProp
    intro hc
    rw [ptLe_iff] at hc
    dsimp only at hc
    omega

theorem sortPts_hDesc (b : Board) (xtop y : Int) (L : Nat) :
    sortPts ((List.range L).map (fun (n : Nat) => (⟨xtop - (n : Int), y, b.width, b.height⟩ : Point))) =
      hCells b (xtop - (L - 1 : Nat)) y L := by
  unfold sortPts
  rw [insertionSort_desc]
  · rw [range_map_reverse]
    unfold hCells
    apply List.map_congr_left
    intro n hn
    rw [List.mem_range] at hn
    congr 1
    omega
  · rw [List.pairwise_map]
    apply (List.pairwise_lt_range L).imp
    intro i j hij
    unfold pLeProp
    intro hc
    rw [ptLe_iff] at hc
    dsimp only at hc
    omega

/-! ### Membership characterizations -/

theorem cMem_append (x y : Int) (l1 l2 : List Point) :
    cMem x y (l1 ++ l2) = (cMem x y l1 || cMem x y l2) := by
  simp [cMem, List.any_append]

theorem cMem_nil (x y : Int) : cMem x y [] = false := rfl

theorem cMem_single_iff (x y a c w h : Int) :
    cMem x y [⟨a, c, w, h⟩] = true ↔ (x = a ∧ y = c) := by
  simp [cMem]
  omega

theorem cMem_vCells_iff (b : Board) (x0 y0 : Int) (L : Nat) (x y : Int) :
    cMem x y (vCells b x0 y0 L) = true ↔
      (x = x0 ∧ y0 ≤ y ∧ y < y0 + (L : Int)) := by
  unfold cMem vCells
  rw [List.any_eq_true]
  simp only [List.mem_map, List.mem_range, Bool.and_eq_true, beq_iff_eq]
  constructor
  · rintro ⟨q, ⟨n, hn, rfl⟩, hx, hy⟩
    dsimp only at hx hy
    omega
  · rintro ⟨rfl, h1, h2⟩
    refine ⟨⟨x, y, b.width, b.height⟩, ⟨(y - y0).toNat, by omega, ?_⟩, rfl, rfl⟩
    congr 1
    omega

theorem cMem_hCells_iff (b : Board) (x0 y0 : Int) (L : Nat) (x y : Int) :
    cMem x y (hCells b x0 y0 L) = true ↔
      (y = y0 ∧ x0 ≤ x ∧ x < x0 + (L : Int)) := by
  unfold cMem hCells
  rw [List.any_eq_true]
  simp only [List.mem_map, List.mem_range, Bool.and_eq_true, beq_iff_eq]
  constructor
  · rintro ⟨q, ⟨n, hn, rfl⟩, hx, hy⟩
    dsimp only at hx hy
    omega
  · rintro ⟨rfl, h1, h2⟩
    refine ⟨⟨x, y, b.width, b.height⟩, ⟨(x - x0).toNat, by omega, ?_⟩, rfl, rfl⟩
    congr 1
    omega

theorem vCells_shift_left (b : Board) (x0 y0 : Int) (L : Nat) :
    (vCells b x0 y0 L).map (fun p => (⟨p.x - 1, p.y, b.width, b.height⟩ : Point)) =
      vCells b (x0 - 1) y0 L := by
  unfold vCells
  rw [List.map_map]
  rfl

theorem vCells_shift_right (b : Board) (x0 y0 : Int) (L : Nat) :
    (vCells b x0 y0 L).map (fun p => (⟨p.x + 1, p.y, b.width, b.height⟩ : Point)) =
      vCells b (x0 + 1) y0 L := by
  unfold vCells
  rw [List.map_map]
  rfl

theorem hCells_shift_up (b : Board) (x0 y0 : Int) (L : Nat) :
    (hCells b x0 y0 L).map (fun p => (⟨p.x, p.y - 1, b.width, b.height⟩ : Point)) =
      hCells b x0 (y0 - 1) L := by
  unfold hCells
  rw [List.map_map]
  rfl

theorem hCells_shift_down (b : Board) (x0 y0 : Int) (L : Nat) :
    (hCells b x0 y0 L).map (fun p => (⟨p.x, p.y + 1, b.width, b.height⟩ : Point)) =
      hCells b x0 (y0 + 1) L := by
  unfold hCells
  rw [List.map_map]
  rfl

theorem vCells_headD (b : Board) (x0 y0 : Int) (L : Nat) (h : 1 ≤ L) :
    (vCells b x0 y0 L).headD pd = ⟨x0, y0, b.width, b.height⟩ := by
  obtain ⟨n, rfl⟩ : ∃ n, L = n + 1 := ⟨L - 1, by omega⟩
  unfold vCells
  rw [List.range_succ_eq_map]
  simp

theorem vCells_getLastD (b : Board) (x0 y0 : Int) (L : Nat) (h : 1 ≤ L) :
    (vCells b x0 y0 L).getLastD pd =
      ⟨x0, y0 + ((L : Int) - 1), b.width, b.height⟩ := by
  obtain ⟨n, rfl⟩ : ∃ n, L = n + 1 := ⟨L - 1, by omega⟩
  unfold vCells
  rw [List.range_succ, List.map_append]
  simp only [List.map_cons, List.map_nil]
  rw [List.getLastD_concat]
  congr 1
  push_cast
  omega

theorem hCells_headD (b : Board) (x0 y0 : Int) (L : Nat) (h : 1 ≤ L) :
    (hCells b x0 y0 L).headD pd = ⟨x0, y0, b.width, b.height⟩ := by
  obtain ⟨n, rfl⟩ : ∃ n, L = n + 1 := ⟨L - 1, by omega⟩
  unfold hCells
  rw [List.range_succ_eq_map]
  simp

theorem hCells_getLastD (b : Board) (x0 y0 : Int) (L : Nat) (h : 1 ≤ L) :
    (hCells b x0 y0 L).getLastD pd =
      ⟨x0 + ((L : Int) - 1), y0, b.width, b.height⟩ := by
  obtain ⟨n, rfl⟩ : ∃ n, L = n + 1 := ⟨L - 1, by omega⟩
  unfold hCells
  rw [List.range_succ, List.map_append]
  simp only [List.map_cons, List.map_nil]
  rw [List.getLastD_concat]
  congr 1
  push_cast
  omega

/-- Membership in the buffer of a vertical ship whose sorted extent is
`vCells b o.x y0 L`: precisely the in-bounds cells directly above the run,
directly below it, and on its two flanks. -/
theorem mkBuffer_vert_mem (b : Board) (o : Point) (d : String) (y0 : Int)
    (L : Nat) (hL : 1 ≤ L) (hd : ¬(d = "right" ∨ d = "left"))
    (hb : 0 ≤ o.x ∧ o.x < b.width ∧ 0 ≤ y0 ∧ y0 + (L : Int) - 1 < b.height)
    (qx qy : Int) :
    cMem qx qy (mkBuffer b o d (vCells b o.x y0 L)) = true ↔
      (inC b qx qy ∧
        ((qx = o.x ∧ (qy = y0 - 1 ∨ qy = y0 + L)) ∨
         ((qx = o.x - 1 ∨ qx = o.x + 1) ∧ y0 ≤ qy ∧ qy < y0 + (L : Int)))) := by
  obtain ⟨hb1, hb2, hb3, hb4⟩ := hb
  unfold mkBuffer
  rw [if_neg hd]
  rw [vCells_headD b o.x y0 L hL, vCells_getLastD b o.x y0 L hL]
  rw [vCells_shift_left, vCells_shift_right]
  dsimp only
  rw [cMem_append, cMem_append, cMem_append]
  unfold inC
  split_ifs <;>
    simp [cMem_nil, cMem_single_iff, cMem_vCells_iff] <;>
    omega

/-- Membership in the buffer of a horizontal ship whose sorted extent is
`hCells b x0 o.y L`. -/
theorem mkBuffer_horiz_mem (b : Board) (o : Point) (d : String) (x0 : Int)
    (L : Nat) (hL : 1 ≤ L) (hd : d = "right" ∨ d = "left")
    (hb : 0 ≤ o.y ∧ o.y < b.height ∧ 0 ≤ x0 ∧ x0 + (L : Int) - 1 < b.width)
    (qx qy : Int) :
    cMem qx qy (mkBuffer b o d (hCells b x0 o.y L)) = true ↔
      (inC b qx qy ∧
        ((qy = o.y ∧ (qx = x0 - 1 ∨ qx = x0 + L)) ∨
         ((qy = o.y - 1 ∨ qy = o.y + 1) ∧ x0 ≤ qx ∧ qx < x0 + (L : Int)))) := by
  obtain ⟨hb1, hb2, hb3, hb4⟩ := hb
  unfold mkBuffer
  rw [if_pos hd]
  rw [hCells_headD b x0 o.y L hL, hCells_getLastD b x0 o.y L hL]
  rw [hCells_shift_up, hCells_shift_down]
  dsimp only
  rw [cMem_append, cMem_append, cMem_append]
  unfold inC
  split_ifs <;>
    simp [cMem_nil, cMem_single_iff, cMem_hCells_iff] <;>
    omega

/-! ### Inversion of Ship.__init__ -/

/-- The extent Points in comprehension order (all-in-bounds case). -/
def extPts (b : Board) (o : Point) (d k : String) : List Point :=
  (extCoords o d (kindLen k)).map (fun c => ⟨c.1, c.2, b.width, b.height⟩)

theorem kindLen_pos (k : String) : 1 ≤ kindLen k := by
  unfold kindLen
  split_ifs <;> omega

theorem mkPoint_ok_inv (b : Board) (x y : Int) (p : Point)
    (h : mkPoint b x y = .ok p) :
    inC b x y ∧ p = ⟨x, y, b.width, b.height⟩ := by
  unfold mkPoint at h
  split_ifs at h with hc
  injection h with h2
  exact ⟨by unfold inC; omega, h2.symm⟩

theorem mkPoints_ok_inv (b : Board) (cs : List (Int × Int)) (ps : List Point)
    (h : mkPoints b cs = .ok ps) :
    (∀ c ∈ cs, inC b c.1 c.2) ∧
    ps = cs.map (fun c => ⟨c.1, c.2, b.width, b.height⟩) := by
  induction cs generalizing ps with
  | nil =>
    unfold mkPoints at h
    injection h with h2
    exact ⟨by simp, by simp [h2.symm]⟩
  | cons c rest ih =>
    unfold mkPoints at h
    cases hm : mkPoint b c.1 c.2 with
    | error e => rw [hm] at h; exact Except.noConfusion h
    | ok p =>
      rw [hm] at h
      cases hr : mkPoints b rest with
      | error e => rw [hr] at h; exact Except.noConfusion h
      | ok ps2 =>
        rw [hr] at h
        injection h with h2
        obtain ⟨hin, hp⟩ := mkPoint_ok_inv b c.1 c.2 p hm
        obtain ⟨hins, hps⟩ := ih ps2 hr
        constructor
        · intro e he
          rcases List.mem_cons.mp he with rfl | he2
          · exact hin
          · exact hins e he2
        · rw [← h2, List.map_cons, ← hps, hp]

theorem shipInit_ok_inv (b : Board) (o : Point) (d k : String) (b2 : Board)
    (h : shipInit b o d k = .ok b2) :
    (d = "down" ∨ d = "up" ∨ d = "left" ∨ d = "right") ∧
    (k = "battleship" ∨ k = "cruiser" ∨ k = "destroyer" ∨ k = "submarine") ∧
    (∀ c ∈ extCoords o d (kindLen k), inC b c.1 c.2) ∧
    (∀ c ∈ extCoords o d (kindLen k), cOverlap b c.1 c.2 = false) ∧
    b2 = { b with content := b.content ++
      [⟨k, sortPts (extPts b o d k), sortPts (extPts b o d k),
        mkBuffer b o d (sortPts (extPts b o d k))⟩] } := by
  unfold shipInit at h
  by_cases hval : ¬(d = "down" ∨ d = "up" ∨ d = "left" ∨ d = "right") ∨
      ¬(k = "battleship" ∨ k = "cruiser" ∨ k = "destroyer" ∨ k = "submarine")
  · rw [if_pos hval] at h
    exact Except.noConfusion h
  · rw [if_neg hval] at h
    rw [not_or, not_not, not_not] at hval
    obtain ⟨hd, hk⟩ := hval
    split at h
    · exact Except.noConfusion h
    · rename_i ext heq
      by_cases hovl : ext.any (fun p => isoverlap b p) = true
      · rw [if_pos hovl] at h
        exact Except.noConfusion h
      · rw [if_neg hovl] at h
        injection h with h2
        obtain ⟨hcs, hps⟩ := mkPoints_ok_inv b _ _ heq
        refine ⟨hd, hk, hcs, ?_, ?_⟩
        · intro c hc
          rw [Bool.eq_false_iff]
          intro hcon
          apply hovl
          rw [List.any_eq_true]
          refine ⟨⟨c.1, c.2, b.width, b.height⟩, ?_, hcon⟩
          rw [hps]
          exact List.mem_map_of_mem _ hc
        · rw [← h2, hps]
          rfl


/-! ### Sorted extents per direction -/

theorem sorted_extPts_down (b : Board) (o : Point) (k : String) :
    sortPts (extPts b o "down" k) = vCells b o.x o.y (kindLen k) := by
  unfold extPts extCoords
  rw [if_pos rfl, List.map_map]
  exact sortPts_vCells b o.x o.y (kindLen k)

theorem sorted_extPts_up (b : Board) (o : Point) (k : String) :
    sortPts (extPts b o "up" k) =
      vCells b o.x (o.y - ((kindLen k : Int) - 1)) (kindLen k) := by
  unfold extPts extCoords
  rw [if_neg (by decide), if_pos rfl, List.map_map]
  have hcast : o.y - ((kindLen k : Int) - 1) = o.y - ((kindLen k - 1 : Nat) : Int) := by
    have := kindLen_pos k
    omega
  rw [hcast]
  exact sortPts_vDesc b o.x o.y (kindLen k)

theorem sorted_extPts_right (b : Board) (o : Point) (k : String) :
    sortPts (extPts b o "right" k) = hCells b o.x o.y (kindLen k) := by
  unfold extPts extCoords
  rw [if_neg (by decide), if_neg (by decide), if_pos rfl, List.map_map]
  exact sortPts_hCells b o.x o.y (kindLen k)

theorem sorted_extPts_left (b : Board) (o : Point) (k : String) :
    sortPts (extPts b o "left" k) =
      hCells b (o.x - ((kindLen k : Int) - 1)) o.y (kindLen k) := by
  unfold extPts extCoords
  rw [if_neg (by decide), if_neg (by decide), if_neg (by decide), List.map_map]
  have hcast : o.x - ((kindLen k : Int) - 1) = o.x - ((kindLen k - 1 : Nat) : Int) := by
    have := kindLen_pos k
    omega
  rw [hcast]
  exact sortPts_hDesc b o.x o.y (kindLen k)

/-! ### Membership of the extent coordinates -/

theorem mem_extCoords_down (o : Point) (L n : Nat) (hn : n < L) :
    (o.x, o.y + (n : Int)) ∈ extCoords o "down" L := by
  unfold extCoords
  rw [if_pos rfl]
  exact List.mem_map_of_mem _ (List.mem_range.mpr hn)

theorem mem_extCoords_up (o : Point) (L n : Nat) (hn : n < L) :
    (o.x, o.y - (n : Int)) ∈ extCoords o "up" L := by
  unfold extCoords
  rw [if_neg (by decide), if_pos rfl]
  exact List.mem_map_of_mem _ (List.mem_range.mpr hn)

theorem mem_extCoords_right (o : Point) (L n : Nat) (hn : n < L) :
    (o.x + (n : Int), o.y) ∈ extCoords o "right" L := by
  unfold extCoords
  rw [if_neg (by decide), if_neg (by decide), if_pos rfl]
  exact List.mem_map_of_mem _ (List.mem_range.mpr hn)

theorem mem_extCoords_left (o : Point) (L n : Nat) (hn : n < L) :
    (o.x - (n : Int), o.y) ∈ extCoords o "left" L := by
  unfold extCoords
  rw [if_neg (by decide), if_neg (by decide), if_neg (by decide)]
  exact List.mem_map_of_mem _ (List.mem_range.mpr hn)

/-! ### Well-formedness of constructed ships -/

/-- Orthogonal adjacency of coordinates. -/
def adjC (x y cx cy : Int) : Prop :=
  (x = cx ∧ (y = cy + 1 ∨ y = cy - 1)) ∨ (y = cy ∧ (x = cx + 1 ∨ x = cx - 1))

/-- The geometric facts every successfully constructed Ship satisfies:
its cells are in bounds; every buffer cell is in bounds and orthogonally
adjacent to a cell; and every in-bounds orthogonal neighbour of a cell is
a cell or a buffer cell. -/
def WFShip (b : Board) (s : Ship) : Prop :=
  (∀ x y, cMem x y s.ext = true → inC b x y) ∧
  (∀ x y, cMem x y s.buffer = true →
    inC b x y ∧ ∃ cx cy, cMem cx cy s.ext = true ∧ adjC x y cx cy) ∧
  (∀ x y cx cy, cMem cx cy s.ext = true → adjC x y cx cy → inC b x y →
    cMem x y s.ext = true ∨ cMem x y s.buffer = true)

theorem cMem_sortPts (x y : Int) (l : List Point) :
    cMem x y (sortPts l) = cMem x y l := by
  unfold cMem sortPts
  have hp := List.perm_insertionSort pLeProp l
  apply Bool.eq_iff_iff.mpr
  rw [List.any_eq_true, List.any_eq_true]
  constructor
  · rintro ⟨a, ha, hf⟩
    exact ⟨a, hp.mem_iff.mp ha, hf⟩
  · rintro ⟨a, ha, hf⟩
    exact ⟨a, hp.mem_iff.mpr ha, hf⟩

theorem cMem_extPts (b : Board) (o : Point) (d k : String) (x y : Int) :
    cMem x y (extPts b o d k) = true ↔ (x, y) ∈ extCoords o d (kindLen k) := by
  unfold cMem extPts
  rw [List.any_eq_true]
  simp only [List.mem_map, Bool.and_eq_true, beq_iff_eq]
  constructor
  · rintro ⟨q, ⟨c, hc, rfl⟩, hx, hy⟩
    dsimp only at hx hy
    obtain ⟨cx, cy⟩ := c
    dsimp only at hx hy
    rw [hx, hy] at hc
    exact hc
  · intro hc
    exact ⟨⟨x, y, b.width, b.height⟩, ⟨(x, y), hc, rfl⟩, rfl, rfl⟩

theorem WF_vert (b : Board) (s : Ship) (x0 y0 : Int) (L : Nat) (hL : 1 ≤ L)
    (hb : 0 ≤ x0 ∧ x0 < b.width ∧ 0 ≤ y0 ∧ y0 + (L : Int) - 1 < b.height)
    (hext : ∀ x y, cMem x y s.ext = true ↔
      (x = x0 ∧ y0 ≤ y ∧ y < y0 + (L : Int)))
    (hbuf : ∀ x y, cMem x y s.buffer = true ↔
      (inC b x y ∧
        ((x = x0 ∧ (y = y0 - 1 ∨ y = y0 + L)) ∨
         ((x = x0 - 1 ∨ x = x0 + 1) ∧ y0 ≤ y ∧ y < y0 + (L : Int))))) :
    WFShip b s := by
  obtain ⟨hb1, hb2, hb3, hb4⟩ := hb
  refine ⟨?_, ?_, ?_⟩
  · intro x y hm
    rw [hext] at hm
    unfold inC
    omega
  · intro x y hm
    rw [hbuf] at hm
    obtain ⟨hin, hcase⟩ := hm
    refine ⟨hin, ?_⟩
    rcases hcase with ⟨hx, hy | hy⟩ | ⟨hx, hy1, hy2⟩
    · exact ⟨x0, y0, by rw [hext]; omega, by unfold adjC; omega⟩
    · exact ⟨x0, y0 + L - 1, by rw [hext]; omega, by unfold adjC; omega⟩
    · exact ⟨x0, y, by rw [hext]; omega, by unfold adjC; omega⟩
  · intro x y cx cy hc hadj hin
    rw [hext] at hc
    unfold adjC at hadj
    unfold inC at hin
    rw [hext, hbuf]
    unfold inC
    omega

theorem WF_horiz (b : Board) (s : Ship) (x0 y0 : Int) (L : Nat) (hL : 1 ≤ L)
    (hb : 0 ≤ y0 ∧ y0 < b.height ∧ 0 ≤ x0 ∧ x0 + (L : Int) - 1 < b.width)
    (hext : ∀ x y, cMem x y s.ext = true ↔
      (y = y0 ∧ x0 ≤ x ∧ x < x0 + (L : Int)))
    (hbuf : ∀ x y, cMem x y s.buffer = true ↔
      (inC b x y ∧
        ((y = y0 ∧ (x = x0 - 1 ∨ x = x0 + L)) ∨
         ((y = y0 - 1 ∨ y = y0 + 1) ∧ x0 ≤ x ∧ x < x0 + (L : Int))))) :
    WFShip b s := by
  obtain ⟨hb1, hb2, hb3, hb4⟩ := hb
  refine ⟨?_, ?_, ?_⟩
  · intro x y hm
    rw [hext] at hm
    unfold inC
    omega
  · intro x y hm
    rw [hbuf] at hm
    obtain ⟨hin, hcase⟩ := hm
    refine ⟨hin, ?_⟩
    rcases hcase with ⟨hy, hx | hx⟩ | ⟨hy, hx1, hx2⟩
    · exact ⟨x0, y0, by rw [hext]; omega, by unfold adjC; omega⟩
    · exact ⟨x0 + L - 1, y0, by rw [hext]; omega, by unfold adjC; omega⟩
    · exact ⟨x, y0, by rw [hext]; omega, by unfold adjC; omega⟩
  · intro x y cx cy hc hadj hin
    rw [hext] at hc
    unfold adjC at hadj
    unfold inC at hin
    rw [hext, hbuf]
    unfold inC
    omega

/-- Normalized view of a successful Ship.__init__ : the new ship is a
vertical or horizontal run with explicit in-bounds base coordinates, its
buffer has the exact neighbourhood characterization, and none of its cells
overlapped the pre-existing board. -/
theorem shipInit_view (b : Board) (o : Point) (d k : String) (b2 : Board)
    (h : shipInit b o d k = .ok b2) :
    ∃ s : Ship, b2 = { b with content := b.content ++ [s] } ∧
      s.valid = s.ext ∧ s.kind = k ∧
      (∀ x y, cMem x y s.ext = true → cOverlap b x y = false) ∧
      ((∃ x0 y0 : Int,
          (d = "down" ∨ d = "up") ∧
          (0 ≤ x0 ∧ x0 < b.width ∧ 0 ≤ y0 ∧ y0 + (kindLen k : Int) - 1 < b.height) ∧
          s.ext = vCells b x0 y0 (kindLen k) ∧
          (∀ qx qy : Int, cMem qx qy s.buffer = true ↔
            (inC b qx qy ∧
              ((qx = x0 ∧ (qy = y0 - 1 ∨ qy = y0 + kindLen k)) ∨
               ((qx = x0 - 1 ∨ qx = x0 + 1) ∧ y0 ≤ qy ∧ qy < y0 + (kindLen k : Int)))))) ∨
       (∃ x0 y0 : Int,
          (d = "left" ∨ d = "right") ∧
          (0 ≤ y0 ∧ y0 < b.height ∧ 0 ≤ x0 ∧ x0 + (kindLen k : Int) - 1 < b.width) ∧
          s.ext = hCells b x0 y0 (kindLen k) ∧
          (∀ qx qy : Int, cMem qx qy s.buffer = true ↔
            (inC b qx qy ∧
              ((qy = y0 ∧ (qx = x0 - 1 ∨ qx = x0 + kindLen k)) ∨
               ((qy = y0 - 1 ∨ qy = y0 + 1) ∧ x0 ≤ qx ∧ qx < x0 + (kindLen k : Int))))))) := by
  obtain ⟨hd, hk, hin, hov, rfl⟩ := shipInit_ok_inv b o d k b2 h
  have hL := kindLen_pos k
  refine ⟨_, rfl, rfl, rfl, ?_, ?_⟩
  · intro x y hm
    rw [cMem_sortPts, cMem_extPts] at hm
    exact hov (x, y) hm
  · rcases hd with rfl | rfl | rfl | rfl
    · -- down
      left
      refine ⟨o.x, o.y, Or.inl rfl, ?_, sorted_extPts_down b o k, ?_⟩
      · have h0 := hin _ (mem_extCoords_down o (kindLen k) 0 (by omega))
        have h1 := hin _ (mem_extCoords_down o (kindLen k) (kindLen k - 1) (by omega))
        unfold inC at h0 h1
        dsimp only at h0 h1
        omega
      · intro qx qy
        show cMem qx qy (mkBuffer b o "down" (sortPts (extPts b o "down" k))) = true ↔ _
        rw [sorted_extPts_down b o k]
        apply mkBuffer_vert_mem b o "down" o.y (kindLen k) hL (by decide)
        have h0 := hin _ (mem_extCoords_down o (kindLen k) 0 (by omega))
        have h1 := hin _ (mem_extCoords_down o (kindLen k) (kindLen k - 1) (by omega))
        unfold inC at h0 h1
        dsimp only at h0 h1
        omega
    · -- up
      left
      refine ⟨o.x, o.y - ((kindLen k : Int) - 1), Or.inr rfl, ?_, sorted_extPts_up b o k, ?_⟩
      · have h0 := hin _ (mem_extCoords_up o (kindLen k) 0 (by omega))
        have h1 := hin _ (mem_extCoords_up o (kindLen k) (kindLen k - 1) (by omega))
        unfold inC at h0 h1
        dsimp only at h0 h1
        omega
      · intro qx qy
        show cMem qx qy (mkBuffer b o "up" (sortPts (extPts b o "up" k))) = true ↔ _
        rw [sorted_extPts_up b o k]
        apply mkBuffer_vert_mem b o "up" _ (kindLen k) hL (by decide)
        have h0 := hin _ (mem_extCoords_up o (kindLen k) 0 (by omega))
        have h1 := hin _ (mem_extCoords_up o (kindLen k) (kindLen k - 1) (by omega))
        unfold inC at h0 h1
        dsimp only at h0 h1
        omega
    · -- left
      right
      refine ⟨o.x - ((kindLen k : Int) - 1), o.y, Or.inl rfl, ?_, sorted_extPts_left b o k, ?_⟩
      · have h0 := hin _ (mem_extCoords_left o (kindLen k) 0 (by omega))
        have h1 := hin _ (mem_extCoords_left o (kindLen k) (kindLen k - 1) (by omega))
        unfold inC at h0 h1
        dsimp only at h0 h1
        omega
      · intro qx qy
        show cMem qx qy (mkBuffer b o "left" (sortPts (extPts b o "left" k))) = true ↔ _
        rw [sorted_extPts_left b o k]
        apply mkBuffer_horiz_mem b o "left" _ (kindLen k) hL (by decide)
        have h0 := hin _ (mem_extCoords_left o (kindLen k) 0 (by omega))
        have h1 := hin _ (mem_extCoords_left o (kindLen k) (kindLen k - 1) (by omega))
        unfold inC at h0 h1
        dsimp only at h0 h1
        omega
    · -- right
      right
      refine ⟨o.x, o.y, Or.inr rfl, ?_, sorted_extPts_right b o k, ?_⟩
      · have h0 := hin _ (mem_extCoords_right o (kindLen k) 0 (by omega))
        have h1 := hin _ (mem_extCoords_right o (kindLen k) (kindLen k - 1) (by omega))
        unfold inC at h0 h1
        dsimp only at h0 h1
        omega
      · intro qx qy
        show cMem qx qy (mkBuffer b o "right" (sortPts (extPts b o "right" k))) = true ↔ _
        rw [sorted_extPts_right b o k]
        apply mkBuffer_horiz_mem b o "right" o.x (kindLen k) hL (by decide)
        have h0 := hin _ (mem_extCoords_right o (kindLen k) 0 (by omega))
        have h1 := hin _ (mem_extCoords_right o (kindLen k) (kindLen k - 1) (by omega))
        unfold inC at h0 h1
        dsimp only at h0 h1
        omega

/-! ### C7 and C9 -/

/-- Unit step along a ship axis: (1,0) for horizontal, (0,1) for vertical. -/
def axX (d : String) : Int := if d = "right" ∨ d = "left" then 1 else 0

def axY (d : String) : Int := if d = "right" ∨ d = "left" then 0 else 1

theorem exists_adj_vert (x0 y0 : Int) (L : Nat) (ext : List Point)
    (hext : ∀ x y, cMem x y ext = true ↔
      (x = x0 ∧ y0 ≤ y ∧ y < y0 + (L : Int))) (qx qy : Int) :
    (∃ cx cy, cMem cx cy ext = true ∧
      ((qx = cx + 1 ∧ qy = cy + 0) ∨ (qx = cx - 1 ∧ qy = cy - 0))) ↔
    ((qx = x0 - 1 ∨ qx = x0 + 1) ∧ y0 ≤ qy ∧ qy < y0 + (L : Int)) := by
  constructor
  · rintro ⟨cx, cy, hc, hrel⟩
    rw [hext] at hc
    omega
  · rintro ⟨hx, hy1, hy2⟩
    exact ⟨x0, qy, by rw [hext]; omega, by omega⟩

theorem exists_adj_horiz (x0 y0 : Int) (L : Nat) (ext : List Point)
    (hext : ∀ x y, cMem x y ext = true ↔
      (y = y0 ∧ x0 ≤ x ∧ x < x0 + (L : Int))) (qx qy : Int) :
    (∃ cx cy, cMem cx cy ext = true ∧
      ((qx = cx + 0 ∧ qy = cy + 1) ∨ (qx = cx - 0 ∧ qy = cy - 1))) ↔
    ((qy = y0 - 1 ∨ qy = y0 + 1) ∧ x0 ≤ qx ∧ qx < x0 + (L : Int)) := by
  constructor
  · rintro ⟨cx, cy, hc, hrel⟩
    rw [hext] at hc
    omega
  · rintro ⟨hy, hx1, hx2⟩
    exact ⟨qx, y0, by rw [hext]; omega, by omega⟩

/-- C7: a successfully constructed Ship's buffer equals the in-bounds
subset of: the coordinate immediately before the first occupied coordinate
along the ship's axis, the one immediately after the last, and, for each
occupied coordinate, the two coordinates perpendicular to the axis; and a
Submarine placed at (A,0) on the empty 10x10 board, with any direction, has
occupied = [(A,0)] and buffer contained in the pair (A,1),(B,0). -/
theorem C7_buffer_is_clipped_neighbourhood (b : Board) (o : Point)
    (d k : String) (b2 : Board) (s : Ship) (h : shipInit b o d k = .ok b2)
    (hs : b2.content = b.content ++ [s]) :
    (∀ qx qy : Int, cMem qx qy s.buffer = true ↔
      (inC b qx qy ∧
        ((qx = (s.ext.headD pd).x - axX d ∧ qy = (s.ext.headD pd).y - axY d) ∨
         (qx = (s.ext.getLastD pd).x + axX d ∧ qy = (s.ext.getLastD pd).y + axY d) ∨
         (∃ cx cy, cMem cx cy s.ext = true ∧
            ((qx = cx + axY d ∧ qy = cy + axX d) ∨
             (qx = cx - axY d ∧ qy = cy - axX d)))))) ∧
    (∀ d2 ∈ ["down", "up", "left", "right"],
      ∃ s3 : Ship, shipInit board10 ⟨0, 0, 10, 10⟩ d2 "submarine" =
          .ok ⟨10, 10, [s3]⟩ ∧ s3.ext = [⟨0, 0, 10, 10⟩] ∧
        ∀ q ∈ s3.buffer, (q.x = 0 ∧ q.y = 1) ∨ (q.x = 1 ∧ q.y = 0)) := by
  constructor
  · obtain ⟨s0, hrec, hval, hkind, hov, hcase⟩ := shipInit_view b o d k b2 h
    have hss : s = s0 := by
      rw [hrec] at hs
      have h3 := List.append_cancel_left (hs : b.content ++ [s0] = b.content ++ [s]).symm
      injection h3 with h4
    subst hss
    have hL := kindLen_pos k
    intro qx qy
    rcases hcase with ⟨x0, y0, hdir, hb, hsext, hbuf⟩ | ⟨x0, y0, hdir, hb, hsext, hbuf⟩
    · rw [hbuf qx qy, hsext, vCells_headD b x0 y0 (kindLen k) hL,
        vCells_getLastD b x0 y0 (kindLen k) hL]
      have ha1 : axX d = 0 := by
        rcases hdir with rfl | rfl <;> rfl
      have ha2 : axY d = 1 := by
        rcases hdir with rfl | rfl <;> rfl
      rw [ha1, ha2]
      dsimp only
      rw [exists_adj_vert x0 y0 (kindLen k) (vCells b x0 y0 (kindLen k))
        (cMem_vCells_iff b x0 y0 (kindLen k)) qx qy]
      unfold inC
      omega
    · rw [hbuf qx qy, hsext, hCells_headD b x0 y0 (kindLen k) hL,
        hCells_getLastD b x0 y0 (kindLen k) hL]
      have ha1 : axX d = 1 := by
        rcases hdir with rfl | rfl <;> rfl
      have ha2 : axY d = 0 := by
        rcases hdir with rfl | rfl <;> rfl
      rw [ha1, ha2]
      dsimp only
      rw [exists_adj_horiz x0 y0 (kindLen k) (hCells b x0 y0 (kindLen k))
        (cMem_hCells_iff b x0 y0 (kindLen k)) qx qy]
      unfold inC
      omega
  · intro d2 hd2
    fin_cases hd2
    · exact ⟨⟨"submarine", [⟨0, 0, 10, 10⟩], [⟨0, 0, 10, 10⟩],
        [⟨1, 0, 10, 10⟩, ⟨0, 1, 10, 10⟩]⟩, rfl, rfl, by decide⟩
    · exact ⟨⟨"submarine", [⟨0, 0, 10, 10⟩], [⟨0, 0, 10, 10⟩],
        [⟨1, 0, 10, 10⟩, ⟨0, 1, 10, 10⟩]⟩, rfl, rfl, by decide⟩
    · exact ⟨⟨"submarine", [⟨0, 0, 10, 10⟩], [⟨0, 0, 10, 10⟩],
        [⟨0, 1, 10, 10⟩, ⟨1, 0, 10, 10⟩]⟩, rfl, rfl, by decide⟩
    · exact ⟨⟨"submarine", [⟨0, 0, 10, 10⟩], [⟨0, 0, 10, 10⟩],
        [⟨0, 1, 10, 10⟩, ⟨1, 0, 10, 10⟩]⟩, rfl, rfl, by decide⟩

/-- C9: placement computes length(class) coordinates; it fails with
OOBError when any of them is outside the grid, fails with OverlapError
when (all are inside and) any lies in an existing ship's occupied or
buffer set, succeeds otherwise, and the only mutation ever performed is
the appending of the new Ship on success — every error return leaves the
board exactly as it was. -/
theorem C9_placement_errors (b : Board) (o : Point) (d k : String)
    (hd : d = "down" ∨ d = "up" ∨ d = "left" ∨ d = "right")
    (hk : k = "battleship" ∨ k = "cruiser" ∨ k = "destroyer" ∨ k = "submarine") :
    ((extCoords o d (kindLen k)).length = kindLen k) ∧
    ((∃ c ∈ extCoords o d (kindLen k), ¬ inC b c.1 c.2) →
      shipInit b o d k = .error .oob) ∧
    ((∀ c ∈ extCoords o d (kindLen k), inC b c.1 c.2) →
      (((∃ c ∈ extCoords o d (kindLen k), cOverlap b c.1 c.2 = true) →
         shipInit b o d k = .error .overlap) ∧
       ((∀ c ∈ extCoords o d (kindLen k), cOverlap b c.1 c.2 = false) →
         ∃ s, shipInit b o d k =
           .ok { b with content := b.content ++ [s] }))) ∧
    (∀ b2, shipInit b o d k = .ok b2 →
      b2.width = b.width ∧ b2.height = b.height ∧
      ∃ s, b2.content = b.content ++ [s]) := by
  have hval : ¬(¬(d = "down" ∨ d = "up" ∨ d = "left" ∨ d = "right") ∨
      ¬(k = "battleship" ∨ k = "cruiser" ∨ k = "destroyer" ∨ k = "submarine")) := by
    rw [not_or, not_not, not_not]
    exact ⟨hd, hk⟩
  refine ⟨?_, ?_, ?_, ?_⟩
  · unfold extCoords
    split_ifs <;> simp
  · intro hoob
    unfold shipInit
    rw [if_neg hval, mkPoints_err b _ hoob]
  · intro hin
    constructor
    · rintro ⟨c, hc, hover⟩
      unfold shipInit
      rw [if_neg hval, mkPoints_ok b _ hin]
      dsimp only
      have hany : ((extCoords o d (kindLen k)).map
          (fun c => (⟨c.1, c.2, b.width, b.height⟩ : Point))).any
          (fun p => isoverlap b p) = true := by
        rw [List.any_eq_true]
        exact ⟨⟨c.1, c.2, b.width, b.height⟩, List.mem_map_of_mem _ hc, hover⟩
      rw [if_pos hany]
    · intro hnone
      refine ⟨⟨k, sortPts (extPts b o d k), sortPts (extPts b o d k),
        mkBuffer b o d (sortPts (extPts b o d k))⟩, ?_⟩
      unfold shipInit
      rw [if_neg hval, mkPoints_ok b _ hin]
      dsimp only
      have hany : ((extCoords o d (kindLen k)).map
          (fun c => (⟨c.1, c.2, b.width, b.height⟩ : Point))).any
          (fun p => isoverlap b p) = false := by
        rw [Bool.eq_false_iff, ne_eq, List.any_eq_true]
        rintro ⟨p, hp, hover⟩
        rw [List.mem_map] at hp
        obtain ⟨c, hc, rfl⟩ := hp
        have hno : isoverlap b ⟨c.1, c.2, b.width, b.height⟩ = false :=
          hnone c hc
        rw [hno] at hover
        exact Bool.noConfusion hover
      have hcond : ¬ (((extCoords o d (kindLen k)).map
          (fun c => (⟨c.1, c.2, b.width, b.height⟩ : Point))).any
          (fun p => isoverlap b p) = true) := by
        rw [hany]
        simp
      rw [if_neg hcond]
      rfl
  · intro b2 h2
    obtain ⟨-, -, -, -, rfl⟩ := shipInit_ok_inv b o d k b2 h2
    exact ⟨rfl, rfl, _, rfl⟩

/-! ### Player.check_guess and the separation invariant (C4, C5) -/

/-- Python list.remove via Point.__eq__ : drop the first equal element. -/
def pRemove : List Point → Point → List Point
  | [], _ => []
  | q :: qs, p => if ptEq q p then qs else q :: pRemove qs p

/-- Player.check_guess : scan the board's ships; on the first ship whose
`valid` holds the guess, remove the coordinate, and if `valid` became
empty drop the ship from the list (the sunk report).  Returns
(hit, sunk-reported, updated ship list). -/
def checkGuess (guess : Point) : List Ship → Bool × Bool × List Ship
  | [] => (false, false, [])
  | ship :: rest =>
    if ptMem guess ship.valid then
      if (pRemove ship.valid guess).isEmpty then (true, true, rest)
      else (true, false, { ship with valid := pRemove ship.valid guess } :: rest)
    else
      ((checkGuess guess rest).1, (checkGuess guess rest).2.1,
        ship :: (checkGuess guess rest).2.2)

/-- Coordinate-set disjointness of two Point lists. -/
def disjointC (l1 l2 : List Point) : Prop :=
  ∀ x y : Int, ¬(cMem x y l1 = true ∧ cMem x y l2 = true)

/-- The C5 separation relation: occupied sets disjoint, and neither
ship's occupied set meets the other's buffer. -/
def shipSep (s1 s2 : Ship) : Prop :=
  disjointC s1.ext s2.ext ∧ disjointC s1.ext s2.buffer ∧
  disjointC s2.ext s1.buffer

/-- A sequence of placements, aborting at the first error (a successful
placement sequence is exactly one for which this returns ok). -/
def placeMany (b : Board) : List (Point × String × String) → Except Err Board
  | [] => .ok b
  | r :: rest =>
    match shipInit b r.1 r.2.1 r.2.2 with
    | .error e => .error e
    | .ok b2 => placeMany b2 rest

/-- The placement invariant: every ship on the board is well-formed and
the ships are pairwise separated. -/
def boardInv (b : Board) : Prop :=
  (∀ s ∈ b.content, WFShip b s) ∧ b.content.Pairwise shipSep

theorem cOverlap_false (b : Board) (x y : Int) (h : cOverlap b x y = false) :
    ∀ t ∈ b.content, cMem x y t.ext = false ∧ cMem x y t.buffer = false := by
  intro t ht
  unfold cOverlap at h
  rw [Bool.eq_false_iff, ne_eq, List.any_eq_true] at h
  constructor <;> rw [Bool.eq_false_iff, ne_eq] <;> intro hc <;>
    exact h ⟨t, ht, by rw [hc]; simp⟩

theorem adjC_symm (x y cx cy : Int) (h : adjC x y cx cy) : adjC cx cy x y := by
  unfold adjC at *
  omega

/-- The geometric heart of C5: a ship that passed the overlap check is
separated from every well-formed ship already on the board — including
the unchecked direction (old occupied vs new buffer), which follows from
buffer soundness of the new ship and neighbourhood completeness of the
old one. -/
theorem sep_of_checks (b : Board) (t s0 : Ship) (ht : t ∈ b.content)
    (hWFt : WFShip b t) (hWFs : WFShip b s0)
    (hov : ∀ x y, cMem x y s0.ext = true → cOverlap b x y = false) :
    shipSep t s0 := by
  refine ⟨?_, ?_, ?_⟩
  · intro x y hcontra
    obtain ⟨h1, h2⟩ := hcontra
    have hf := (cOverlap_false b x y (hov x y h2) t ht).1
    rw [hf] at h1
    exact Bool.noConfusion h1
  · intro x y hcontra
    obtain ⟨h1, h2⟩ := hcontra
    obtain ⟨hin, cx, cy, hcs, hadj⟩ := hWFs.2.1 x y h2
    have hinc : inC b cx cy := hWFs.1 cx cy hcs
    have hadj2 : adjC cx cy x y := adjC_symm x y cx cy hadj
    have hfalse := cOverlap_false b cx cy (hov cx cy hcs) t ht
    rcases hWFt.2.2 cx cy x y h1 hadj2 hinc with hc | hc
    · rw [hfalse.1] at hc
      exact Bool.noConfusion hc
    · rw [hfalse.2] at hc
      exact Bool.noConfusion hc
  · intro x y hcontra
    obtain ⟨h1, h2⟩ := hcontra
    have hf := (cOverlap_false b x y (hov x y h1) t ht).2
    rw [hf] at h2
    exact Bool.noConfusion h2

theorem WFShip_dims (b b2 : Board) (s : Ship) (hw : b2.width = b.width)
    (hh : b2.height = b.height) (h : WFShip b s) : WFShip b2 s := by
  unfold WFShip inC at *
  rw [hw, hh]
  exact h

theorem shipInit_preserves_inv (b : Board) (o : Point) (d k : String)
    (b2 : Board) (h : shipInit b o d k = .ok b2) (hinv : boardInv b) :
    boardInv b2 := by
  obtain ⟨s0, rfl, hval, hkind, hov, hcase⟩ := shipInit_view b o d k b2 h
  obtain ⟨hWF, hPW⟩ := hinv
  have hL := kindLen_pos k
  have hWFs : WFShip b s0 := by
    rcases hcase with ⟨x0, y0, hdir, hb, hsext, hbuf⟩ |
      ⟨x0, y0, hdir, hb, hsext, hbuf⟩
    · exact WF_vert b s0 x0 y0 (kindLen k) hL hb
        (fun x y => by rw [hsext]; exact cMem_vCells_iff b x0 y0 (kindLen k) x y)
        hbuf
    · exact WF_horiz b s0 x0 y0 (kindLen k) hL hb
        (fun x y => by rw [hsext]; exact cMem_hCells_iff b x0 y0 (kindLen k) x y)
        hbuf
  constructor
  · intro s hs
    dsimp only at hs
    rcases List.mem_append.mp hs with hs1 | hs2
    · exact WFShip_dims _ b s rfl rfl (hWF s hs1)
    · rw [List.mem_singleton.mp hs2]
      exact WFShip_dims _ b s0 rfl rfl hWFs
  · dsimp only
    rw [List.pairwise_append]
    refine ⟨hPW, List.pairwise_singleton _ _, ?_⟩
    intro t ht s hs
    rw [List.mem_singleton.mp hs]
    exact sep_of_checks b t s0 ht (hWF t ht) hWFs hov

theorem placeMany_inv (reqs : List (Point × String × String)) :
    ∀ b b2, placeMany b reqs = .ok b2 → boardInv b → boardInv b2 := by
  induction reqs with
  | nil =>
    intro b b2 h hi
    injection h with h2
    rw [← h2]
    exact hi
  | cons r rest ih =>
    intro b b2 h hi
    unfold placeMany at h
    cases hm : shipInit b r.1 r.2.1 r.2.2 with
    | error e => rw [hm] at h; exact Except.noConfusion h
    | ok bmid =>
      rw [hm] at h
      exact ih bmid b2 h (shipInit_preserves_inv b _ _ _ bmid hm hi)

theorem checkGuess_mem_shape (g : Point) (ships : List Ship) :
    ∀ t ∈ (checkGuess g ships).2.2,
      ∃ t0 ∈ ships, t.ext = t0.ext ∧ t.buffer = t0.buffer := by
  induction ships with
  | nil =>
    intro t ht
    simp [checkGuess] at ht
  | cons ship rest ih =>
    intro t ht
    unfold checkGuess at ht
    by_cases hm : ptMem g ship.valid = true
    · rw [if_pos hm] at ht
      by_cases he : (pRemove ship.valid g).isEmpty = true
      · rw [if_pos he] at ht
        exact ⟨t, List.mem_cons_of_mem _ ht, rfl, rfl⟩
      · rw [if_neg he] at ht
        rcases List.mem_cons.mp ht with rfl | ht2
        · exact ⟨ship, List.mem_cons_self _ _, rfl, rfl⟩
        · exact ⟨t, List.mem_cons_of_mem _ ht2, rfl, rfl⟩
    · rw [if_neg hm] at ht
      dsimp only at ht
      rcases List.mem_cons.mp ht with rfl | ht2
      · exact ⟨t, List.mem_cons_self _ _, rfl, rfl⟩
      · obtain ⟨t0, ht0, he1, he2⟩ := ih t ht2
        exact ⟨t0, List.mem_cons_of_mem _ ht0, he1, he2⟩

theorem shipSep_congr (a t t0 : Ship) (h1 : t.ext = t0.ext)
    (h2 : t.buffer = t0.buffer) (h : shipSep a t0) : shipSep a t := by
  unfold shipSep disjointC at *
  rw [h1, h2]
  exact h

theorem checkGuess_preserves_pairwise (g : Point) (ships : List Ship)
    (h : ships.Pairwise shipSep) :
    ((checkGuess g ships).2.2).Pairwise shipSep := by
  induction ships with
  | nil => exact List.Pairwise.nil
  | cons ship rest ih =>
    rw [List.pairwise_cons] at h
    unfold checkGuess
    by_cases hm : ptMem g ship.valid = true
    · rw [if_pos hm]
      by_cases he : (pRemove ship.valid g).isEmpty = true
      · rw [if_pos he]
        exact h.2
      · rw [if_neg he]
        dsimp only
        rw [List.pairwise_cons]
        exact ⟨fun t ht => h.1 t ht, h.2⟩
    · rw [if_neg hm]
      dsimp only
      rw [List.pairwise_cons]
      refine ⟨?_, ih h.2⟩
      intro t ht
      obtain ⟨t0, ht0, he1, he2⟩ := checkGuess_mem_shape g rest t ht
      exact shipSep_congr ship t t0 he1 he2 (h.1 t0 ht0)

/-- C5: after any successful sequence of placements on an empty board,
the ships present are pairwise separated — occupied sets disjoint and no
ship's occupied set meets another's buffer, in either direction — and the
separation is preserved by the gameplay mutator (check_guess). -/
theorem C5_ships_pairwise_separated (W H : Int)
    (reqs : List (Point × String × String)) (b2 : Board)
    (h : placeMany ⟨W, H, []⟩ reqs = .ok b2) :
    b2.content.Pairwise shipSep ∧
    (∀ g ships, ships.Pairwise shipSep →
      ((checkGuess g ships).2.2).Pairwise shipSep) := by
  constructor
  · exact (placeMany_inv reqs ⟨W, H, []⟩ b2 h
      ⟨fun s hs => absurd hs (List.not_mem_nil s), List.Pairwise.nil⟩).2
  · exact fun g ships hp => checkGuess_preserves_pairwise g ships hp

/-! ### C4: behaviour of check_guess -/

theorem ptMem_iff_countP (p : Point) (l : List Point) :
    ptMem p l = true ↔ 0 < l.countP (fun q => ptEq q p) := by
  unfold ptMem cMem
  rw [List.any_eq_true, List.countP_pos_iff]
  exact Iff.rfl

theorem pRemove_cons_pos (q : Point) (qs : List Point) (p : Point)
    (he : ptEq q p = true) : pRemove (q :: qs) p = qs := by
  unfold pRemove
  rw [if_pos he]

theorem pRemove_cons_neg (q : Point) (qs : List Point) (p : Point)
    (he : ¬ ptEq q p = true) : pRemove (q :: qs) p = q :: pRemove qs p := by
  show (if ptEq q p = true then qs else q :: pRemove qs p) = q :: pRemove qs p
  rw [if_neg he]

theorem ptMem_cons (p q : Point) (qs : List Point) :
    ptMem p (q :: qs) = (ptEq q p || ptMem p qs) := by
  unfold ptMem cMem ptEq
  rw [List.any_cons]

theorem pRemove_not_mem (l : List Point) (p : Point)
    (hc : l.countP (fun q => ptEq q p) ≤ 1) :
    ptMem p (pRemove l p) = false := by
  induction l with
  | nil => rfl
  | cons q qs ih =>
    by_cases he : ptEq q p = true
    · have h0 : qs.countP (fun q => ptEq q p) = 0 := by
        rw [List.countP_cons] at hc
        simp only [he, if_pos] at hc
        omega
      rw [pRemove_cons_pos q qs p he, Bool.eq_false_iff, ne_eq,
        ptMem_iff_countP, h0]
      omega
    · rw [pRemove_cons_neg q qs p he, ptMem_cons]
      have hrec : ptMem p (pRemove qs p) = false := by
        apply ih
        rw [List.countP_cons] at hc
        omega
      rw [hrec, Bool.eq_false_iff.mpr he]
      rfl

theorem checkGuess_cons_hit (g : Point) (ship : Ship) (rest : List Ship)
    (hm : ptMem g ship.valid = true) :
    checkGuess g (ship :: rest) =
      (if (pRemove ship.valid g).isEmpty then (true, true, rest)
       else (true, false,
         { ship with valid := pRemove ship.valid g } :: rest)) := by
  show (if ptMem g ship.valid = true then
      (if (pRemove ship.valid g).isEmpty then (true, true, rest)
       else (true, false, { ship with valid := pRemove ship.valid g } :: rest))
    else ((checkGuess g rest).1, (checkGuess g rest).2.1,
      ship :: (checkGuess g rest).2.2)) = _
  rw [if_pos hm]

theorem checkGuess_cons_miss (g : Point) (ship : Ship) (rest : List Ship)
    (hm : ¬ ptMem g ship.valid = true) :
    checkGuess g (ship :: rest) =
      ((checkGuess g rest).1, (checkGuess g rest).2.1,
        ship :: (checkGuess g rest).2.2) := by
  show (if ptMem g ship.valid = true then
      (if (pRemove ship.valid g).isEmpty then (true, true, rest)
       else (true, false, { ship with valid := pRemove ship.valid g } :: rest))
    else ((checkGuess g rest).1, (checkGuess g rest).2.1,
      ship :: (checkGuess g rest).2.2)) = _
  rw [if_neg hm]

theorem checkGuess_miss (g : Point) (ships : List Ship)
    (h : ∀ sh ∈ ships, ptMem g sh.valid = false) :
    checkGuess g ships = (false, false, ships) := by
  induction ships with
  | nil => rfl
  | cons ship rest ih =>
    rw [checkGuess_cons_miss g ship rest
      (by rw [h ship (List.mem_cons_self ship rest)]; simp)]
    rw [ih (fun s hs => h s (List.mem_cons_of_mem _ hs))]

theorem checkGuess_hit (g : Point) (pre : List Ship) (sh : Ship)
    (post : List Ship) (hpre : ∀ s2 ∈ pre, ptMem g s2.valid = false)
    (hm : ptMem g sh.valid = true) :
    checkGuess g (pre ++ sh :: post) =
      (true, (pRemove sh.valid g).isEmpty,
       pre ++ (if (pRemove sh.valid g).isEmpty then post
               else { sh with valid := pRemove sh.valid g } :: post)) := by
  induction pre with
  | nil =>
    rw [List.nil_append, checkGuess_cons_hit g sh post hm]
    by_cases he : (pRemove sh.valid g).isEmpty = true
    · rw [if_pos he, if_pos he, he]
      rfl
    · rw [if_neg he, if_neg he]
      rw [Bool.eq_false_iff.mpr he]
      rfl
  | cons p ps ih =>
    rw [List.cons_append, checkGuess_cons_miss g p _
      (by rw [hpre p (List.mem_cons_self p ps)]; simp)]
    rw [ih (fun s hs => hpre s (List.mem_cons_of_mem _ hs))]
    rfl

theorem checkGuess_no_mem (g : Point) (ships : List Ship)
    (hdisj : ships.countP (fun sh => ptMem g sh.valid) ≤ 1)
    (hnd : ∀ sh ∈ ships, sh.valid.countP (fun q => ptEq q g) ≤ 1) :
    ∀ t ∈ (checkGuess g ships).2.2, ptMem g t.valid = false := by
  induction ships with
  | nil =>
    intro t ht
    exact absurd ht (List.not_mem_nil t)
  | cons ship rest ih =>
    intro t ht
    by_cases hm : ptMem g ship.valid = true
    · rw [checkGuess_cons_hit g ship rest hm] at ht
      have hrest : ∀ t2 ∈ rest, ptMem g t2.valid = false := by
        intro t2 ht2
        have hz : rest.countP (fun sh => ptMem g sh.valid) = 0 := by
          rw [List.countP_cons] at hdisj
          simp only [hm, if_pos] at hdisj
          omega
        rw [Bool.eq_false_iff, ne_eq]
        intro hc
        have hpos : 0 < rest.countP (fun sh => ptMem g sh.valid) :=
          List.countP_pos_iff.mpr ⟨t2, ht2, hc⟩
        omega
      by_cases he : (pRemove ship.valid g).isEmpty = true
      · rw [if_pos he] at ht
        exact hrest t ht
      · rw [if_neg he] at ht
        rcases List.mem_cons.mp ht with rfl | ht2
        · exact pRemove_not_mem ship.valid g
            (hnd ship (List.mem_cons_self ship rest))
        · exact hrest t ht2
    · rw [checkGuess_cons_miss g ship rest hm] at ht
      rcases List.mem_cons.mp ht with rfl | ht2
      · exact Bool.eq_false_iff.mpr hm
      · apply ih ?_ (fun s hs => hnd s (List.mem_cons_of_mem _ hs)) t ht2
        rw [List.countP_cons] at hdisj
        omega

/-- C4: receive_guess (Player.check_guess) removes the guessed coordinate
from the first ship whose remaining set holds it, reports sunk exactly
when that set becomes empty and removes the ship from the list in the
same step; if no ship holds the coordinate it reports a miss and changes
nothing; and a second identical guess is always a miss that removes
nothing (no double removal). -/
theorem C4_receive_guess (guess : Point) (ships : List Ship)
    (hdisj : ships.countP (fun sh => ptMem guess sh.valid) ≤ 1)
    (hnd : ∀ sh ∈ ships, sh.valid.countP (fun q => ptEq q guess) ≤ 1) :
    ((∀ sh ∈ ships, ptMem guess sh.valid = false) →
      checkGuess guess ships = (false, false, ships)) ∧
    (∀ pre sh post, ships = pre ++ sh :: post →
      (∀ s2 ∈ pre, ptMem guess s2.valid = false) →
      ptMem guess sh.valid = true →
      checkGuess guess ships =
        (true, (pRemove sh.valid guess).isEmpty,
         pre ++ (if (pRemove sh.valid guess).isEmpty then post
                 else { sh with valid := pRemove sh.valid guess } :: post))) ∧
    (checkGuess guess (checkGuess guess ships).2.2 =
      (false, false, (checkGuess guess ships).2.2)) := by
  refine ⟨?_, ?_, ?_⟩
  · exact checkGuess_miss guess ships
  · intro pre sh post hsplit hpre hm
    rw [hsplit]
    exact checkGuess_hit guess pre sh post hpre hm
  · exact checkGuess_miss guess _ (checkGuess_no_mem guess ships hdisj hnd)

/-! ### The targeting engine (class AI) -/

/-- AI state: `guesses` is the excluded list (past guesses plus sunk
buffers), `combo` the hit streak, `adj_guide` and `guide` the two deques
(front = left end of the list). -/
structure AIState where
  guesses : List Point
  combo : List Point
  adj_guide : List Point
  guide : List Point
deriving DecidableEq, Repr

/-- The filter loop `for p in adj: if p in self.guesses: adj.remove(p)`
of AI.make_guess.  Removing while iterating makes Python skip the element
directly after each removed one, so an already-guessed point can survive
the filter. -/
def adjFilter (g : List Point) : List Point → List Point
  | [] => []
  | a :: rest =>
    if ptMem a g then
      match rest with
      | [] => []
      | b :: rest2 => b :: adjFilter g rest2
    else a :: adjFilter g rest

/-- deque.rotate(n) for n ≥ 0: right rotation by n places. -/
def rotR (l : List Point) (n : Nat) : List Point :=
  l.rotate (l.length - n % l.length)

/-- AI.make_guess.  `pb` is the opponent (player) board, `n` the value
drawn by randrange for the adjacency rotation, `stream` the successive
points produced by Board.rand_point in random_guess.  Errors model the
Python exceptions: ValueError from randrange(0), IndexError from popping
an empty deque, NameError from the catch-all branch reading the unbound
`gs`, and `exhausted` marks a random stream with no fresh point (the
Python loop would keep drawing). -/
def makeGuess (s : AIState) (pb : Board) (n : Nat) (stream : List Point) :
    Except Err (Point × AIState) :=
  match s.guide with
  | g0 :: grest =>
    .ok (g0, { s with guide := grest, guesses := s.guesses ++ [g0] })
  | [] =>
    match s.combo with
    | [] =>
      match stream.find? (fun p => !ptMem p s.guesses) with
      | some p => .ok (p, { s with guesses := s.guesses ++ [p] })
      | none => .error .exhausted
    | _ :: _ =>
      match (if s.combo.length = 1 ∧ s.adj_guide = [] then
          (if (adjFilter s.guesses (adjPts (s.combo.getLastD pd))).length = 0
           then Except.error Err.valueErr
           else Except.ok (rotR
             (adjFilter s.guesses (adjPts (s.combo.getLastD pd))) n))
        else Except.ok s.adj_guide) with
      | .error e => .error e
      | .ok ag =>
        if s.combo.length = 1 then
          match ag.getLast? with
          | some gs =>
            .ok (gs,
              { s with adj_guide := ag.dropLast, guesses := s.guesses ++ [gs] })
          | none => .error .indexErr
        else if s.combo.length = 2 then
          match (inline pb (s.combo.getD (s.combo.length - 2) pd)
              (s.combo.getLastD pd)).filter
              (fun p => !ptMem p s.guesses) with
          | gs :: grest =>
            .ok (gs,
              { s with adj_guide := ag, guide := grest, guesses := s.guesses ++ [gs] })
          | [] => .error .indexErr
        else .error .nameErr

/-- The buffer-to-guesses loop of AI.check_guess on a sink: append each
buffer point not already present. -/
def bufferAppend (guesses buf : List Point) : List Point :=
  buf.foldl (fun acc p => if ptMem p acc then acc else acc ++ [p]) guesses

/-- AI.check_guess : updates the player's ships and the AI state.
On a hit the coordinate is removed from the ship and appended to the
streak; if the ship sank, the ship is dropped, its buffer is folded into
`guesses` and all targeting state is cleared.  On a complete miss the
guide deque, when non-empty, is rotated left by one. -/
def aiCheckGuess (guess : Point) (ships : List Ship) (s : AIState) :
    Bool × List Ship × AIState :=
  match ships with
  | [] => (false, [],
      if s.guide.isEmpty then s else { s with guide := s.guide.rotate 1 })
  | ship :: rest =>
    if ptMem guess ship.valid then
      if (pRemove ship.valid guess).isEmpty then
        (true, rest,
         { s with guesses := bufferAppend s.guesses ship.buffer, combo := [], guide := [], adj_guide := [] })
      else
        (true, { ship with valid := pRemove ship.valid guess } :: rest,
         { s with combo := s.combo ++ [guess] })
    else
      ((aiCheckGuess guess rest s).1,
       ship :: (aiCheckGuess guess rest s).2.1,
       (aiCheckGuess guess rest s).2.2)

/-! ### C1, C2, C8 -/

/-- C1 (defect witness): with B2 and B0 already guessed and a hit at B1,
the adjacency filter of make_guess (which mutates the list it iterates)
fails to drop B0, and with rotation draw 2 the engine RETURNS B0 — a
coordinate already in `guesses` — and appends it to `guesses` again, so
the excluded set does not grow.  This contradicts the never-repeat
invariant the code's own docstring states for `guesses`. -/
theorem C1_engine_repeats_excluded_guess :
    makeGuess ⟨[⟨1, 2, 10, 10⟩, ⟨1, 0, 10, 10⟩], [⟨1, 1, 10, 10⟩], [], []⟩
        board10 2 [] =
      .ok (⟨1, 0, 10, 10⟩,
        ⟨[⟨1, 2, 10, 10⟩, ⟨1, 0, 10, 10⟩, ⟨1, 0, 10, 10⟩], [⟨1, 1, 10, 10⟩],
         [⟨2, 1, 10, 10⟩, ⟨0, 1, 10, 10⟩], []⟩) ∧
    ptMem ⟨1, 0, 10, 10⟩ [⟨1, 2, 10, 10⟩, ⟨1, 0, 10, 10⟩] = true :=
  ⟨rfl, rfl⟩

/-- C2 (counterexample): with a 3-hit streak and an empty line queue,
make_guess reaches the catch-all branch, which only prints a debug line
and then reads the never-assigned local `gs` — a NameError — even though
the random stream still holds a fresh coordinate.  The engine does not
clear its state and does not fall back to random search. -/
theorem C2_overflow_crashes_instead_of_resetting :
    makeGuess ⟨[], [⟨0, 0, 10, 10⟩, ⟨0, 1, 10, 10⟩, ⟨0, 2, 10, 10⟩], [], []⟩
        board10 0 [⟨5, 5, 10, 10⟩] = .error .nameErr := rfl

/-- C2 (amended): whenever the line queue is empty and the hit streak
exceeds 2 entries, make_guess raises NameError (unbound `gs`), leaving
all targeting state as it was, rather than resetting and guessing. -/
theorem C2_amended_overflow_raises_nameerror (s : AIState) (pb : Board)
    (n : Nat) (stream : List Point) (hg : s.guide = [])
    (hc : 2 < s.combo.length) :
    makeGuess s pb n stream = .error .nameErr := by
  obtain ⟨gs, cmb, ag, gd⟩ := s
  dsimp only at hg hc
  subst hg
  cases cmb with
  | nil => simp at hc
  | cons c cs =>
    have h1 : ¬((c :: cs).length = 1 ∧ ag = []) := by
      rintro ⟨ha, -⟩
      rw [List.length_cons] at ha hc
      omega
    have h2 : ¬((c :: cs).length = 1) := by
      intro ha
      rw [List.length_cons] at ha hc
      omega
    have h3 : ¬((c :: cs).length = 2) := by
      intro ha
      rw [List.length_cons] at ha hc
      omega
    show makeGuess ⟨gs, c :: cs, ag, []⟩ pb n stream = .error .nameErr
    unfold makeGuess
    dsimp only
    rw [if_neg h1]
    dsimp only
    rw [if_neg h2, if_neg h3]

theorem aiCheckGuess_cons_miss (guess : Point) (ship : Ship)
    (rest : List Ship) (s : AIState) (hm : ¬ ptMem guess ship.valid = true) :
    aiCheckGuess guess (ship :: rest) s =
      ((aiCheckGuess guess rest s).1,
       ship :: (aiCheckGuess guess rest s).2.1,
       (aiCheckGuess guess rest s).2.2) := by
  show (if ptMem guess ship.valid = true then
      (if (pRemove ship.valid guess).isEmpty then
        (true, rest,
         { s with guesses := bufferAppend s.guesses ship.buffer, combo := [], guide := [], adj_guide := [] })
      else
        (true, { ship with valid := pRemove ship.valid guess } :: rest,
         { s with combo := s.combo ++ [guess] }))
    else
      ((aiCheckGuess guess rest s).1,
       ship :: (aiCheckGuess guess rest s).2.1,
       (aiCheckGuess guess rest s).2.2)) = _
  rw [if_neg hm]

theorem aiCheckGuess_miss (guess : Point) (ships : List Ship) (s : AIState)
    (h : ∀ sh ∈ ships, ptMem guess sh.valid = false) :
    aiCheckGuess guess ships s = (false, ships,
      if s.guide.isEmpty then s else { s with guide := s.guide.rotate 1 }) := by
  induction ships with
  | nil => rfl
  | cons ship rest ih =>
    rw [aiCheckGuess_cons_miss guess ship rest s
      (by rw [h ship (List.mem_cons_self ship rest)]; simp)]
    rw [ih (fun s2 hs => h s2 (List.mem_cons_of_mem _ hs))]

theorem cMem_rotate (x y : Int) (l : List Point) (n : Nat) :
    cMem x y (l.rotate n) = cMem x y l := by
  unfold cMem
  have hp := List.rotate_perm l n
  apply Bool.eq_iff_iff.mpr
  rw [List.any_eq_true, List.any_eq_true]
  constructor
  · rintro ⟨a, ha, hf⟩
    exact ⟨a, hp.mem_iff.mp ha, hf⟩
  · rintro ⟨a, ha, hf⟩
    exact ⟨a, hp.mem_iff.mpr ha, hf⟩

/-- C8: a miss recorded while the line queue is non-empty leaves the hit
report false and the ships unchanged, rotates the queue left by one
position (discarding nothing — membership is preserved), and the next
selected guess is the head of the rotated queue; concretely
[E6, E7, E3, E2] becomes [E7, E3, E2, E6] and the next guess is E7. -/
theorem C8_miss_rotates_line_queue (guess : Point) (ships : List Ship)
    (s : AIState) (hmiss : ∀ sh ∈ ships, ptMem guess sh.valid = false)
    (hg : s.guide ≠ []) :
    (aiCheckGuess guess ships s).1 = false ∧
    (aiCheckGuess guess ships s).2.1 = ships ∧
    (aiCheckGuess guess ships s).2.2.guide = s.guide.rotate 1 ∧
    (aiCheckGuess guess ships s).2.2.guesses = s.guesses ∧
    (∀ x y : Int, cMem x y ((aiCheckGuess guess ships s).2.2.guide) =
      cMem x y s.guide) ∧
    (∀ pb n stream, ∃ s2,
      makeGuess ((aiCheckGuess guess ships s).2.2) pb n stream =
        .ok ((s.guide.rotate 1).headD pd, s2)) ∧
    (s.guide = [⟨4, 6, 10, 10⟩, ⟨4, 7, 10, 10⟩, ⟨4, 3, 10, 10⟩, ⟨4, 2, 10, 10⟩] →
      (aiCheckGuess guess ships s).2.2.guide =
        [⟨4, 7, 10, 10⟩, ⟨4, 3, 10, 10⟩, ⟨4, 2, 10, 10⟩, ⟨4, 6, 10, 10⟩] ∧
      (s.guide.rotate 1).headD pd = ⟨4, 7, 10, 10⟩) := by
  have hE : s.guide.isEmpty = false := by
    cases hcase : s.guide with
    | nil => exact absurd hcase hg
    | cons a as => rfl
  have hmain : aiCheckGuess guess ships s =
      (false, ships, { s with guide := s.guide.rotate 1 }) := by
    rw [aiCheckGuess_miss guess ships s hmiss]
    rw [if_neg (by rw [hE]; simp : ¬ s.guide.isEmpty = true)]
  rw [hmain]
  refine ⟨rfl, rfl, rfl, rfl, fun x y => cMem_rotate x y s.guide 1, ?_, ?_⟩
  · intro pb n stream
    rcases hrot : s.guide.rotate 1 with _ | ⟨g0, gr⟩
    · exfalso
      have hlen := List.length_rotate s.guide 1
      rw [hrot] at hlen
      simp at hlen
      exact hg (List.length_eq_zero.mp hlen.symm)
    · exact ⟨{ s with guide := gr, guesses := s.guesses ++ [g0] }, rfl⟩
  · intro hgui
    rw [hgui]
    exact ⟨rfl, rfl⟩

/-! ### C3: totality of make_guess -/

/-- A point validly constructed on a board of at least 2x2 (every point of
the fixed 10x10 game satisfies this). -/
def ptWF (p : Point) : Prop :=
  2 ≤ p.bw ∧ 2 ≤ p.bh ∧ 0 ≤ p.x ∧ p.x < p.bw ∧ 0 ≤ p.y ∧ p.y < p.bh

theorem adjPts_length_ge2 (p : Point) (h : ptWF p) :
    2 ≤ (adjPts p).length := by
  obtain ⟨h1, h2, h3, h4, h5, h6⟩ := h
  unfold adjPts
  split_ifs <;> simp <;> omega

theorem adjFilter_ne_nil (g : List Point) (l : List Point)
    (h : 2 ≤ l.length) : adjFilter g l ≠ [] := by
  match l with
  | a :: b :: rest =>
    unfold adjFilter
    split_ifs with hm
    · simp
    · simp

theorem C3_make_guess_total (s : AIState) (pb : Board) (n : Nat)
    (stream : List Point)
    (hwf : s.combo.length = 1 → ptWF (s.combo.getLastD pd))
    (hph : s.guide ≠ [] ∨ s.combo.length = 1 ∨
      (s.combo = [] ∧ ∃ p ∈ stream, ptMem p s.guesses = false) ∨
      (s.combo.length = 2 ∧
        (inline pb (s.combo.getD (s.combo.length - 2) pd)
          (s.combo.getLastD pd)).filter
          (fun p => !ptMem p s.guesses) ≠ [])) :
    ∃ r, makeGuess s pb n stream = .ok r := by
  obtain ⟨gs, cmb, ag, gd⟩ := s
  dsimp only at hwf hph
  cases gd with
  | cons g0 gr => exact ⟨_, rfl⟩
  | nil =>
    rcases hph with hg | h1 | ⟨hcE, p, hp, hfresh⟩ | ⟨h2, hline⟩
    · exact absurd rfl hg
    · obtain ⟨c, rfl⟩ : ∃ c, cmb = [c] := by
        cases cmb with
        | nil => simp at h1
        | cons c cs =>
          cases cs with
          | nil => exact ⟨c, rfl⟩
          | cons d ds => simp at h1
      have hwf2 : ptWF c := hwf rfl
      by_cases hag : ag = []
      · subst hag
        have hlen2 : 2 ≤ (adjPts ([c].getLastD pd)).length :=
          adjPts_length_ge2 c hwf2
        have hfne : adjFilter gs (adjPts ([c].getLastD pd)) ≠ [] :=
          adjFilter_ne_nil gs _ hlen2
        have hlen0 : ¬ (adjFilter gs (adjPts ([c].getLastD pd))).length = 0 := by
          intro hcon
          exact hfne (List.length_eq_zero.mp hcon)
        unfold makeGuess
        dsimp only
        rw [if_pos ⟨rfl, rfl⟩, if_neg hlen0]
        dsimp only
        rw [if_pos (show ([c] : List Point).length = 1 by rfl)]
        have hrne : rotR (adjFilter gs (adjPts ([c].getLastD pd))) n ≠ [] := by
          intro hcon
          have hl := congrArg List.length hcon
          rw [rotR, List.length_rotate] at hl
          exact hfne (List.length_eq_zero.mp hl)
        cases hsome : (rotR (adjFilter gs (adjPts ([c].getLastD pd))) n).getLast? with
        | none => exact absurd (List.getLast?_eq_none_iff.mp hsome) hrne
        | some gl => exact ⟨_, rfl⟩
      · unfold makeGuess
        dsimp only
        rw [if_neg (fun hcon => hag hcon.2)]
        dsimp only
        rw [if_pos (show ([c] : List Point).length = 1 by rfl)]
        cases hsome : ag.getLast? with
        | none => exact absurd (List.getLast?_eq_none_iff.mp hsome) hag
        | some gl => exact ⟨_, rfl⟩
    · subst hcE
      unfold makeGuess
      dsimp only
      have hfind : ∃ q, stream.find? (fun p => !ptMem p gs) = some q := by
        rw [← Option.isSome_iff_exists, List.find?_isSome]
        exact ⟨p, hp, by rw [hfresh]; rfl⟩
      obtain ⟨q, hq⟩ := hfind
      rw [hq]
      exact ⟨_, rfl⟩
    · obtain ⟨c1, c2, rfl⟩ : ∃ c1 c2, cmb = [c1, c2] := by
        cases cmb with
        | nil => simp at h2
        | cons c cs =>
          cases cs with
          | nil => simp at h2
          | cons d ds =>
            cases ds with
            | nil => exact ⟨c, d, rfl⟩
            | cons e es => simp at h2
      unfold makeGuess
      dsimp only
      rw [if_neg (by rintro ⟨ha, -⟩; simp at ha)]
      dsimp only
      rw [if_neg (by simp), if_pos (show ([c1, c2] : List Point).length = 2 by rfl)]
      cases hfe : (inline pb ([c1, c2].getD ([c1, c2].length - 2) pd)
          ([c1, c2].getLastD pd)).filter (fun p => !ptMem p gs) with
      | nil => exact absurd hfe hline
      | cons q qs => exact ⟨_, rfl⟩

/-! ### Witnesses -/

theorem C2_amended_overflow_raises_nameerror_witness :
    makeGuess ⟨[], [⟨2, 2, 10, 10⟩, ⟨2, 3, 10, 10⟩, ⟨2, 4, 10, 10⟩], [], []⟩
        board10 3 [] = .error .nameErr :=
  C2_amended_overflow_raises_nameerror
    ⟨[], [⟨2, 2, 10, 10⟩, ⟨2, 3, 10, 10⟩, ⟨2, 4, 10, 10⟩], [], []⟩
    board10 3 [] rfl (by decide)

theorem C3_make_guess_total_witness :
    ∃ r, makeGuess ⟨[], [⟨1, 1, 10, 10⟩], [], []⟩ board10 0 [] = .ok r :=
  C3_make_guess_total ⟨[], [⟨1, 1, 10, 10⟩], [], []⟩ board10 0 []
    (fun _ => by unfold ptWF; decide) (Or.inr (Or.inl (by decide)))

theorem C4_receive_guess_witness :
    checkGuess ⟨0, 0, 10, 10⟩
        [⟨"submarine", [⟨3, 3, 10, 10⟩], [⟨3, 3, 10, 10⟩], []⟩] =
      (false, false,
        [⟨"submarine", [⟨3, 3, 10, 10⟩], [⟨3, 3, 10, 10⟩], []⟩]) :=
  (C4_receive_guess ⟨0, 0, 10, 10⟩
    [⟨"submarine", [⟨3, 3, 10, 10⟩], [⟨3, 3, 10, 10⟩], []⟩]
    (by decide) (by decide)).1 (by decide)

theorem C5_ships_pairwise_separated_witness :
    ([⟨"submarine", [⟨0, 0, 10, 10⟩], [⟨0, 0, 10, 10⟩],
       [⟨1, 0, 10, 10⟩, ⟨0, 1, 10, 10⟩]⟩] : List Ship).Pairwise shipSep :=
  (C5_ships_pairwise_separated 10 10
    [(⟨0, 0, 10, 10⟩, "down", "submarine")]
    (Board.mk 10 10 [⟨"submarine", [⟨0, 0, 10, 10⟩], [⟨0, 0, 10, 10⟩],
      [⟨1, 0, 10, 10⟩, ⟨0, 1, 10, 10⟩]⟩]) rfl).1

theorem C6_inline_ray_characterization_witness :
    inline board10 ⟨4, 4, 10, 10⟩ ⟨4, 5, 10, 10⟩ =
      [⟨4, 6, 10, 10⟩, ⟨4, 7, 10, 10⟩, ⟨4, 3, 10, 10⟩, ⟨4, 2, 10, 10⟩] := by
  have h := (C6_inline_ray_characterization board10 ⟨4, 4, 10, 10⟩
    ⟨4, 5, 10, 10⟩ (by decide) (by decide) (Or.inl rfl)).2 (by decide)
  rw [h.1]
  rfl

theorem C7_buffer_is_clipped_neighbourhood_witness :
    ∃ s3 : Ship, shipInit board10 ⟨0, 0, 10, 10⟩ "down" "submarine" =
        .ok ⟨10, 10, [s3]⟩ ∧ s3.ext = [⟨0, 0, 10, 10⟩] ∧
      ∀ q ∈ s3.buffer, (q.x = 0 ∧ q.y = 1) ∨ (q.x = 1 ∧ q.y = 0) :=
  (C7_buffer_is_clipped_neighbourhood board10 ⟨0, 0, 10, 10⟩ "down"
    "submarine"
    ⟨10, 10, [⟨"submarine", [⟨0, 0, 10, 10⟩], [⟨0, 0, 10, 10⟩],
      [⟨1, 0, 10, 10⟩, ⟨0, 1, 10, 10⟩]⟩]⟩
    ⟨"submarine", [⟨0, 0, 10, 10⟩], [⟨0, 0, 10, 10⟩],
      [⟨1, 0, 10, 10⟩, ⟨0, 1, 10, 10⟩]⟩ rfl rfl).2 "down" (by decide)

theorem C8_miss_rotates_line_queue_witness :
    (aiCheckGuess ⟨0, 0, 10, 10⟩
        [⟨"submarine", [⟨9, 9, 10, 10⟩], [⟨9, 9, 10, 10⟩], []⟩]
        ⟨[], [], [],
         [⟨4, 6, 10, 10⟩, ⟨4, 7, 10, 10⟩, ⟨4, 3, 10, 10⟩, ⟨4, 2, 10, 10⟩]⟩).2.2.guide =
      [⟨4, 7, 10, 10⟩, ⟨4, 3, 10, 10⟩, ⟨4, 2, 10, 10⟩, ⟨4, 6, 10, 10⟩] ∧
    (([⟨4, 6, 10, 10⟩, ⟨4, 7, 10, 10⟩, ⟨4, 3, 10, 10⟩,
       ⟨4, 2, 10, 10⟩] : List Point).rotate 1).headD pd = ⟨4, 7, 10, 10⟩ :=
  (C8_miss_rotates_line_queue ⟨0, 0, 10, 10⟩
    [⟨"submarine", [⟨9, 9, 10, 10⟩], [⟨9, 9, 10, 10⟩], []⟩]
    ⟨[], [], [],
     [⟨4, 6, 10, 10⟩, ⟨4, 7, 10, 10⟩, ⟨4, 3, 10, 10⟩, ⟨4, 2, 10, 10⟩]⟩
    (by decide) (by decide)).2.2.2.2.2.2 rfl

theorem C9_placement_errors_witness :
    shipInit board10 ⟨9, 9, 10, 10⟩ "down" "battleship" = .error .oob :=
  (C9_placement_errors board10 ⟨9, 9, 10, 10⟩ "down" "battleship"
    (Or.inl rfl) (Or.inl rfl)).2.1 (by decide)

end SinkOrSail
